import Mathlib

/-!
# gomp preprocessor: the loop-hoisting pass of `preproc/preproc.go`

A shallow embedding of the tree walk of `preproc.go` over a fragment of `go/ast`,
together with theorems about the recognizers (`parseForInit`, `parseForCond`,
`parseForPost`), the rewriter (`visitFor`), the walker (`visitExpr`,
`visitStmt`, `visitBlock`, `visitFunction`) and the driver (`PreprocFile`).

Conventions of the embedding.

* An `*ast.Ident` is represented by its `Name`; a nil pointer or nil interface
  value is `none`.
* The closure `context.genSym` is a name sequence `gen : Nat → String` together
  with the number `n` of names handed out so far: a call returns `gen n` and
  leaves the state `n + 1`.
* A nil-pointer dereference aborts the run; a function that can abort returns
  `Option`, with `none` for the abort.
* The Go code rewrites the tree in place.  `visitStmt` receives a pointer to a
  slot holding a statement; the embedding returns both the value of the slot
  after the call and the node the slot pointed to at the start, as mutated in
  place, because `visitExpr` passes the address of a loop variable and keeps the
  node, not the slot.
-/

namespace Gomp

/-- The tokens of `go/token` that occur in the trees considered here. -/
inductive Token
  | ILLEGAL | INT | STRING
  | ADD | SUB | MUL | QUO | REM
  | LAND | LOR | NOT
  | EQL | LSS | GTR | NEQ | LEQ | GEQ
  | ASSIGN | DEFINE | ADD_ASSIGN | SUB_ASSIGN
  | INC | DEC
  deriving DecidableEq, Repr

mutual
/-- Expressions of `go/ast`: the kinds the pass inspects, a few that can carry
function literals, and an uninspected remainder. -/
inductive Expr
  | ident (name : String)
  | basicLit (kind : Token) (value : String)
  | binary (x : Expr) (op : Token) (y : Expr)
  | unary (op : Token) (x : Expr)
  | paren (x : Expr)
  | call (f : Expr) (args : List Expr)
  | funcLit (body : Option (List Stmt))
  | other (tag : Nat)
/-- Statements of `go/ast`.  A `*ast.BlockStmt` field is `Option (List Stmt)`,
`none` being the nil pointer. -/
inductive Stmt
  | assign (lhs : List Expr) (tok : Token) (rhs : List Expr)
  | forStmt (init : Option Stmt) (cond : Option Expr) (post : Option Stmt)
      (body : Option (List Stmt))
  | block (list : List Stmt)
  | ifStmt (init : Option Stmt) (cond : Expr) (body : Option (List Stmt)) (els : Option Stmt)
  | switchStmt (init : Option Stmt) (tag : Option Expr) (body : Option (List Stmt))
  | typeSwitchStmt (init : Option Stmt) (assign : Stmt) (body : Option (List Stmt))
  | caseClause (list : List Expr) (body : List Stmt)
  | incDec (x : Expr) (tok : Token)
  | exprStmt (x : Expr)
  | rangeStmt (key : Option Expr) (value : Option Expr) (tok : Token) (x : Expr)
      (body : Option (List Stmt))
  | labeled (label : String) (stmt : Stmt)
  | goStmt (call : Expr)
  | deferStmt (call : Expr)
  | other (tag : Nat)
end

/-- `parseForInit`: returns `(variable, initExpr, ok)`.  `initExpr` is the value
stored in the slot `&assignStmt.Rhs[0]`.  The argument `none` is an absent init
statement.  As in the source, `ok` is assigned by the type assertion and the
length test returns without resetting it. -/
def parseForInit (stmt : Option Stmt) : Option String × Option Expr × Bool :=
  match stmt with
  | some (.assign lhs _ rhs) =>
    if lhs.length ≠ 1 ∨ rhs.length ≠ 1 then (none, none, true)
    else
      match lhs.head?, rhs.head? with
      | some (.ident name), some e => (some name, some e, true)
      | _, _ => (none, none, false)
  | _ => (none, none, false)

/-- `parseForCond`: returns `(variable, op, bound, ok)`.  `bound` is the value
stored in the slot `&binaryExpr.Y`.  As in the source, `ok` is assigned by the
type assertion and the `default` branch of the operator switch returns without
resetting it. -/
def parseForCond (expr : Option Expr) : Option String × Token × Option Expr × Bool :=
  match expr with
  | some (.binary x op y) =>
    if op = Token.LEQ ∨ op = Token.LSS ∨ op = Token.GTR ∨ op = Token.GEQ then
      match x with
      | .ident name => (some name, op, some y, true)
      | _ => (none, op, none, false)
    else (none, Token.ILLEGAL, none, true)
  | _ => (none, Token.ILLEGAL, none, false)

/-- `parseForPost`: returns `(variable, op, ok)`. -/
def parseForPost (stmt : Option Stmt) : Option String × Token × Bool :=
  match stmt with
  | some (.incDec x tok) =>
    match x with
    | .ident name => (some name, tok, true)
    | _ => (none, tok, false)
  | _ => (none, Token.ILLEGAL, false)

/-- The write `*initExpr = v`, where `initExpr = &assignStmt.Rhs[0]` of the init
statement. -/
def setInitExpr (init : Option Stmt) (v : Expr) : Option Stmt :=
  match init with
  | some (.assign lhs tok (_ :: rest)) => some (.assign lhs tok (v :: rest))
  | s => s

/-- The write `*condExpr = v`, where `condExpr = &binaryExpr.Y` of the
condition. -/
def setCondExpr (cond : Option Expr) (v : Expr) : Option Expr :=
  match cond with
  | some (.binary x op _) => some (.binary x op v)
  | e => e

/-- The `Value` of `incVarConst` after the `switch postOp`. -/
def incVarValue (postOp : Token) : String :=
  if postOp = Token.INC then "1" else if postOp = Token.DEC then "-1" else ""

/-- `visitFor` on the loop `for init; cond; post body` with generator state `n`.
`none` is a nil-pointer dereference.  Otherwise the result is
`(block, loop, n1)`: the returned `*ast.BlockStmt` (`none` for nil), the
`ForStmt` node after the call, and the generator state after the call. -/
def visitFor (gen : Nat → String) (init : Option Stmt) (cond : Option Expr)
    (post : Option Stmt) (body : Option (List Stmt)) (n : Nat) :
    Option (Option Stmt × Stmt × Nat) :=
  match parseForInit init, parseForCond cond, parseForPost post with
  | (initVar, initExpr, initOk), (condVar, _, condExpr, condOk), (postVar, postOp, postOk) =>
    if !initOk || !condOk || !postOk then
      some (none, .forStmt init cond post body, n)
    else
      match initVar, condVar with
      | none, _ => none
      | some _, none => none
      | some iv, some cv =>
        if iv ≠ cv then some (none, .forStmt init cond post body, n)
        else
          match postVar with
          | none => none
          | some pv =>
            if iv ≠ pv then some (none, .forStmt init cond post body, n)
            else
              match initExpr, condExpr with
              | some ie, some ce =>
                let initVarSym := Expr.ident (gen n)
                let condVarSym := Expr.ident (gen (n + 1))
                let incVarSym := Expr.ident (gen (n + 2))
                let incVarConst := Expr.basicLit Token.INT (incVarValue postOp)
                let boundsDecl := Stmt.assign [initVarSym, condVarSym, incVarSym] Token.DEFINE
                  [ie, ce, incVarConst]
                let loop := Stmt.forStmt (setInitExpr init initVarSym)
                  (setCondExpr cond condVarSym)
                  (some (.assign [.ident iv] Token.ADD_ASSIGN [incVarSym])) body
                some (some (.block [boundsDecl, loop]), loop, n + 3)
              | _, _ => none

mutual
/-- `visitExpr`: only a function literal with a body is entered. -/
def visitExpr (gen : Nat → String) (e : Expr) (n : Nat) : Option (Expr × Nat) :=
  match e with
  | .funcLit (some l) =>
    match visitFuncBody gen l n with
    | some (l1, n1) => some (.funcLit (some l1), n1)
    | none => none
  | e => some (e, n)
/-- The loop `for _, s := range t.Body.List { visitStmt(&s, context) }` of
`visitExpr`: `s` is a copy of the list element, so the list keeps the node and
an assignment to `*stmt` is lost. -/
def visitFuncBody (gen : Nat → String) (l : List Stmt) (n : Nat) : Option (List Stmt × Nat) :=
  match l with
  | [] => some ([], n)
  | s :: rest =>
    match visitStmt gen s n with
    | none => none
    | some (_, node, n1) =>
      match visitFuncBody gen rest n1 with
      | none => none
      | some (rest1, n2) => some (node :: rest1, n2)
/-- The loop `for _, e := range t.Rhs { visitExpr(&e, context) }` of
`visitStmt`. -/
def visitRhs (gen : Nat → String) (es : List Expr) (n : Nat) : Option (List Expr × Nat) :=
  match es with
  | [] => some ([], n)
  | e :: rest =>
    match visitExpr gen e n with
    | none => none
    | some (e1, n1) =>
      match visitRhs gen rest n1 with
      | none => none
      | some (rest1, n2) => some (e1 :: rest1, n2)
/-- `visitStmt` on a slot holding `s`.  The result is `(slot, node, n1)`: the
value of `*stmt` after the call, the node `s` as mutated in place, and the
generator state. -/
def visitStmt (gen : Nat → String) (s : Stmt) (n : Nat) : Option (Stmt × Stmt × Nat) :=
  match s with
  | .assign lhs tok rhs =>
    match visitRhs gen rhs n with
    | none => none
    | some (rhs1, n1) => some (.assign lhs tok rhs1, .assign lhs tok rhs1, n1)
  | .forStmt init cond post body =>
    match visitFor gen init cond post body n with
    | none => none
    | some (some blk, loop, n1) => some (blk, loop, n1)
    | some (none, loop, n1) => some (loop, loop, n1)
  | .block list =>
    match visitStmts gen list n with
    | none => none
    | some (list1, n1) => some (.block list1, .block list1, n1)
  | .ifStmt init cond body els =>
    match visitBlock gen body n with
    | none => none
    | some (body1, n1) => some (.ifStmt init cond body1 els, .ifStmt init cond body1 els, n1)
  | .switchStmt init tag body =>
    match visitBlock gen body n with
    | none => none
    | some (body1, n1) => some (.switchStmt init tag body1, .switchStmt init tag body1, n1)
  | .typeSwitchStmt init a body =>
    match visitBlock gen body n with
    | none => none
    | some (body1, n1) =>
      some (.typeSwitchStmt init a body1, .typeSwitchStmt init a body1, n1)
  | .caseClause list body =>
    match visitStmts gen body n with
    | none => none
    | some (body1, n1) => some (.caseClause list body1, .caseClause list body1, n1)
  | s => some (s, s, n)
/-- The loops `for i, _ := range list { visitStmt(&list[i], context) }` of
`visitBlock` and of the case-clause branch of `visitStmt`. -/
def visitStmts (gen : Nat → String) (l : List Stmt) (n : Nat) : Option (List Stmt × Nat) :=
  match l with
  | [] => some ([], n)
  | s :: rest =>
    match visitStmt gen s n with
    | none => none
    | some (slot, _, n1) =>
      match visitStmts gen rest n1 with
      | none => none
      | some (rest1, n2) => some (slot :: rest1, n2)
/-- `visitBlock` on a `*ast.BlockStmt`. -/
def visitBlock (gen : Nat → String) (b : Option (List Stmt)) (n : Nat) :
    Option (Option (List Stmt) × Nat) :=
  match b with
  | none => some (none, n)
  | some l =>
    match visitStmts gen l n with
    | none => none
    | some (l1, n1) => some (some l1, n1)
end

/-- `visitFunction` on the `Body` of a `*ast.FuncDecl`. -/
def visitFunction (gen : Nat → String) (body : Option (List Stmt)) (n : Nat) :
    Option (Option (List Stmt) × Nat) :=
  match body with
  | none => some (none, n)
  | some l => visitBlock gen (some l) n

/-! ## Vocabulary of the specification -/

/-- Target of an init statement that is a single-target single-value assignment
to an identifier. -/
def initTarget : Option Stmt → Option String
  | some (.assign [.ident x] _ [_]) => some x
  | _ => none

/-- Left operand of a condition that is a binary `<`, `<=`, `>` or `>=` with an
identifier on the left. -/
def condTarget : Option Expr → Option String
  | some (.binary (.ident x) op _) =>
    if op = Token.LSS ∨ op = Token.LEQ ∨ op = Token.GTR ∨ op = Token.GEQ then some x else none
  | _ => none

/-- Operand of a post statement that is an increment or decrement of an
identifier. -/
def postTarget : Option Stmt → Option String
  | some (.incDec (.ident x) _) => some x
  | _ => none

/-- Eligibility of a loop header as the specification words it: the three
recognized shapes, with the same identifier name in all three slots. -/
def eligible (init : Option Stmt) (cond : Option Expr) (post : Option Stmt) : Bool :=
  match initTarget init, condTarget cond, postTarget post with
  | some x, some y, some z => decide (x = y ∧ x = z)
  | _, _, _ => false

/-- The declaration `a, b, c := init, bound, lit` built on a canonical header
from generator state `n`. -/
def hoistedDecl (gen : Nat → String) (initE bound : Expr) (ptok : Token) (n : Nat) : Stmt :=
  .assign [.ident (gen n), .ident (gen (n + 1)), .ident (gen (n + 2))] Token.DEFINE
    [initE, bound, .basicLit Token.INT (incVarValue ptok)]

/-- The loop `for x TOK a; x OP b; x += c body` left behind on a canonical
header from generator state `n`. -/
def hoistedLoop (gen : Nat → String) (x : String) (tok : Token) (op : Token)
    (body : Option (List Stmt)) (n : Nat) : Stmt :=
  .forStmt (some (.assign [.ident x] tok [.ident (gen n)]))
    (some (.binary (.ident x) op (.ident (gen (n + 1)))))
    (some (.assign [.ident x] Token.ADD_ASSIGN [.ident (gen (n + 2))])) body

/-- The statement kinds that have a branch in the type switch of `visitStmt`. -/
def walked : Stmt → Bool
  | .assign _ _ _ => true
  | .forStmt _ _ _ _ => true
  | .block _ => true
  | .ifStmt _ _ _ _ => true
  | .switchStmt _ _ _ => true
  | .typeSwitchStmt _ _ _ => true
  | .caseClause _ _ => true
  | _ => false

/-- Names of the identifiers on the left-hand side of an assignment. -/
def lhsNames : Stmt → List String
  | .assign lhs _ _ => lhs.filterMap (fun e => match e with | .ident x => some x | _ => none)
  | _ => []

mutual
/-- Names of all identifiers that occur in an expression. -/
def identsExpr : Expr → List String
  | .ident x => [x]
  | .basicLit _ _ => []
  | .binary x _ y => identsExpr x ++ identsExpr y
  | .unary _ x => identsExpr x
  | .paren x => identsExpr x
  | .call f args => identsExpr f ++ identsExprs args
  | .funcLit none => []
  | .funcLit (some l) => identsStmts l
  | .other _ => []
/-- Names of all identifiers that occur in a list of expressions. -/
def identsExprs : List Expr → List String
  | [] => []
  | e :: r => identsExpr e ++ identsExprs r
/-- Names of all identifiers that occur in a statement, labels included. -/
def identsStmt : Stmt → List String
  | .assign lhs _ rhs => identsExprs lhs ++ identsExprs rhs
  | .forStmt i c p b =>
    (match i with | some s => identsStmt s | none => []) ++
    (match c with | some e => identsExpr e | none => []) ++
    (match p with | some s => identsStmt s | none => []) ++
    (match b with | some l => identsStmts l | none => [])
  | .block l => identsStmts l
  | .ifStmt i c b e =>
    (match i with | some s => identsStmt s | none => []) ++ identsExpr c ++
    (match b with | some l => identsStmts l | none => []) ++
    (match e with | some s => identsStmt s | none => [])
  | .switchStmt i t b =>
    (match i with | some s => identsStmt s | none => []) ++
    (match t with | some e => identsExpr e | none => []) ++
    (match b with | some l => identsStmts l | none => [])
  | .typeSwitchStmt i a b =>
    (match i with | some s => identsStmt s | none => []) ++ identsStmt a ++
    (match b with | some l => identsStmts l | none => [])
  | .caseClause l b => identsExprs l ++ identsStmts b
  | .incDec x _ => identsExpr x
  | .exprStmt x => identsExpr x
  | .rangeStmt k v _ x b =>
    (match k with | some e => identsExpr e | none => []) ++
    (match v with | some e => identsExpr e | none => []) ++ identsExpr x ++
    (match b with | some l => identsStmts l | none => [])
  | .labeled l s => l :: identsStmt s
  | .goStmt c => identsExpr c
  | .deferStmt c => identsExpr c
  | .other _ => []
/-- Names of all identifiers that occur in a list of statements. -/
def identsStmts : List Stmt → List String
  | [] => []
  | s :: r => identsStmt s ++ identsStmts r
end

/-- Names of all identifiers that occur in a function body. -/
def identsBody : Option (List Stmt) → List String
  | none => []
  | some l => identsStmts l

mutual
/-- The declarations built by the successful `visitFor` calls that
`visitExpr gen e n` makes, in the order of the calls. -/
def declsExpr (gen : Nat → String) (e : Expr) (n : Nat) : List Stmt :=
  match e with
  | .funcLit (some l) => declsFuncBody gen l n
  | _ => []
/-- The declarations built during `visitFuncBody gen l n`. -/
def declsFuncBody (gen : Nat → String) (l : List Stmt) (n : Nat) : List Stmt :=
  match l with
  | [] => []
  | s :: rest =>
    declsStmt gen s n ++
      (match visitStmt gen s n with
       | some (_, _, n1) => declsFuncBody gen rest n1
       | none => [])
/-- The declarations built during `visitRhs gen es n`. -/
def declsRhs (gen : Nat → String) (es : List Expr) (n : Nat) : List Stmt :=
  match es with
  | [] => []
  | e :: rest =>
    declsExpr gen e n ++
      (match visitExpr gen e n with
       | some (_, n1) => declsRhs gen rest n1
       | none => [])
/-- The declarations built during `visitStmt gen s n`: on a for-loop, the first
statement of the block that `visitFor` returns, if it returns one. -/
def declsStmt (gen : Nat → String) (s : Stmt) (n : Nat) : List Stmt :=
  match s with
  | .assign _ _ rhs => declsRhs gen rhs n
  | .forStmt init cond post body =>
    match visitFor gen init cond post body n with
    | some (some (.block (decl :: _)), _, _) => [decl]
    | _ => []
  | .block list => declsStmts gen list n
  | .ifStmt _ _ body _ => declsBlock gen body n
  | .switchStmt _ _ body => declsBlock gen body n
  | .typeSwitchStmt _ _ body => declsBlock gen body n
  | .caseClause _ body => declsStmts gen body n
  | _ => []
/-- The declarations built during `visitStmts gen l n`. -/
def declsStmts (gen : Nat → String) (l : List Stmt) (n : Nat) : List Stmt :=
  match l with
  | [] => []
  | s :: rest =>
    declsStmt gen s n ++
      (match visitStmt gen s n with
       | some (_, _, n1) => declsStmts gen rest n1
       | none => [])
/-- The declarations built during `visitBlock gen b n`. -/
def declsBlock (gen : Nat → String) (b : Option (List Stmt)) (n : Nat) : List Stmt :=
  match b with
  | none => []
  | some l => declsStmts gen l n
end

/-- The statement sequence below `s` whose slots `visitStmt` passes to itself:
a block list, a then-body, a switch or type-switch body, a case-clause body. -/
def children : Stmt → List Stmt
  | .block l => l
  | .ifStmt _ _ (some l) _ => l
  | .switchStmt _ _ (some l) => l
  | .typeSwitchStmt _ _ (some l) => l
  | .caseClause _ l => l
  | _ => []

/-- One step down from a statement to a statement sequence that the walker
visits below it: `child` for the sequence `children s`, `lit j` for the body of
the function literal that is right-hand side `j` of the assignment `s`. -/
inductive Step
  | child
  | lit (j : Nat)

/-- The statement sequence one step below a statement, `[]` where there is
none. -/
def below : Stmt → Step → List Stmt
  | s, .child => children s
  | .assign _ _ rhs, .lit j =>
    match rhs[j]? with
    | some (.funcLit (some l)) => l
    | _ => []
  | _, .lit _ => []

/-- The statement at a position that the walker visits: index `i` of the
sequence `l`, then, for each `(st, k)` of the path in turn, index `k` of the
sequence `below s st` of the statement `s` reached so far. -/
def stmtVia : List Stmt → Nat → List (Step × Nat) → Option Stmt
  | l, i, [] => l[i]?
  | l, i, (st, k) :: p =>
    match l[i]? with
    | none => none
    | some s => stmtVia (below s st) k p

/-- Whether the sequence that holds the statement at the end of a path is walked
through its slots (`visitStmts`) rather than through copies of its elements
(`visitFuncBody`): `mode` says it for the sequence the path starts in; after a
`child` step it is true, after a `lit` step it is false. -/
def inSlots : Bool → List (Step × Nat) → Bool
  | mode, [] => mode
  | _, (.child, _) :: p => inSlots true p
  | _, (.lit _, _) :: p => inSlots false p

/-- The walk of a statement sequence: `visitStmts` when it is walked through its
slots, `visitFuncBody` when it is the body of a function literal. -/
def walkSeq (gen : Nat → String) (mode : Bool) (l : List Stmt) (n : Nat) :
    Option (List Stmt × Nat) :=
  if mode then visitStmts gen l n else visitFuncBody gen l n

mutual
/-- Whether an eligible for-loop stands at one of the positions of `s` given by
`children`, `s` itself included. -/
def reachEligible : Stmt → Bool
  | .forStmt i c p _ => eligible i c p
  | .block l => reachEligibleList l
  | .ifStmt _ _ (some l) _ => reachEligibleList l
  | .switchStmt _ _ (some l) => reachEligibleList l
  | .typeSwitchStmt _ _ (some l) => reachEligibleList l
  | .caseClause _ l => reachEligibleList l
  | _ => false
/-- Whether an eligible for-loop stands at such a position of a sequence. -/
def reachEligibleList : List Stmt → Bool
  | [] => false
  | s :: r => reachEligible s || reachEligibleList r
end

/-- A name sequence used to run the walk on concrete trees: `v`, `vv`, `vvv`,
and so on. -/
def sampleGen (k : Nat) : String := String.mk (List.replicate (k + 1) 'v')

/-! ## Sample trees -/

/-- The header `i := 0`. -/
def initI : Stmt := .assign [.ident "i"] Token.DEFINE [.basicLit Token.INT "0"]

/-- The post statement `i++`. -/
def postI : Stmt := .incDec (.ident "i") Token.INC

/-- The loop `for i := 0; i < f(); i++ {}`. -/
def loopLt : Stmt :=
  .forStmt (some initI) (some (.binary (.ident "i") Token.LSS (.call (.ident "f") [])))
    (some postI) (some [])

/-- The loop `for i := 0; i != n; i++ {}`. -/
def loopNeq : Stmt :=
  .forStmt (some initI) (some (.binary (.ident "i") Token.NEQ (.ident "n"))) (some postI)
    (some [])

/-- The loop `for i, j := 0, 0; i < n; i++ {}`. -/
def loopTwoVars : Stmt :=
  .forStmt
    (some (.assign [.ident "i", .ident "j"] Token.DEFINE
      [.basicLit Token.INT "0", .basicLit Token.INT "0"]))
    (some (.binary (.ident "i") Token.LSS (.ident "n"))) (some postI) (some [])

/-- The loop `for j := 0; j < m; j++ {}`. -/
def loopInner : Stmt :=
  .forStmt (some (.assign [.ident "j"] Token.DEFINE [.basicLit Token.INT "0"]))
    (some (.binary (.ident "j") Token.LSS (.ident "m")))
    (some (.incDec (.ident "j") Token.INC)) (some [])

/-- The loop `for i := 0; i < n; i++ { for j := 0; j < m; j++ {} }`. -/
def loopNested : Stmt :=
  .forStmt (some initI) (some (.binary (.ident "i") Token.LSS (.ident "n"))) (some postI)
    (some [loopInner])

/-- The statement `f := func() { for i := 0; i < f(); i++ {} }`. -/
def assignFuncLit : Stmt :=
  .assign [.ident "f"] Token.DEFINE [.funcLit (some [loopLt])]

/-- What the walk does to the generator, stated on the list `ds` of declarations
built from state `n` to state `n1`: three names per declaration, and the
left-hand names are the names drawn, in order. -/
def DrawsFor (gen : Nat → String) (ds : List Stmt) (n n1 : Nat) : Prop :=
  n1 = n + 3 * ds.length ∧ (∀ d ∈ ds, (lhsNames d).length = 3) ∧
    (ds.map lhsNames).flatten = (List.range' n (3 * ds.length)).map gen

/-- Motives and case hypotheses for an induction along a successful run of the
walker: one predicate per walker function, relating the visited tree and the
generator state before the call to the results. -/
structure WalkCases (gen : Nat → String) where
  onExpr : Expr → Nat → Expr → Nat → Prop
  onFuncBody : List Stmt → Nat → List Stmt → Nat → Prop
  onRhs : List Expr → Nat → List Expr → Nat → Prop
  onStmt : Stmt → Nat → Stmt → Stmt → Nat → Prop
  onStmts : List Stmt → Nat → List Stmt → Nat → Prop
  onBlock : Option (List Stmt) → Nat → Option (List Stmt) → Nat → Prop
  expr_funcLit : ∀ l n l1 n1, visitFuncBody gen l n = some (l1, n1) → onFuncBody l n l1 n1 →
    onExpr (.funcLit (some l)) n (.funcLit (some l1)) n1
  expr_skip : ∀ e n, (∀ l, e ≠ .funcLit (some l)) → onExpr e n e n
  funcBody_nil : ∀ n, onFuncBody [] n [] n
  funcBody_cons : ∀ s rest n slot node m rest1 n1, visitStmt gen s n = some (slot, node, m) →
    onStmt s n slot node m → visitFuncBody gen rest m = some (rest1, n1) →
    onFuncBody rest m rest1 n1 → onFuncBody (s :: rest) n (node :: rest1) n1
  rhs_nil : ∀ n, onRhs [] n [] n
  rhs_cons : ∀ e rest n e1 m rest1 n1, visitExpr gen e n = some (e1, m) → onExpr e n e1 m →
    visitRhs gen rest m = some (rest1, n1) → onRhs rest m rest1 n1 →
    onRhs (e :: rest) n (e1 :: rest1) n1
  stmt_assign : ∀ lhs tok rhs n rhs1 n1, visitRhs gen rhs n = some (rhs1, n1) →
    onRhs rhs n rhs1 n1 → onStmt (.assign lhs tok rhs) n (.assign lhs tok rhs1)
      (.assign lhs tok rhs1) n1
  stmt_for_match : ∀ init cond post body n blk loop n1,
    visitFor gen init cond post body n = some (some blk, loop, n1) →
    onStmt (.forStmt init cond post body) n blk loop n1
  stmt_for_skip : ∀ init cond post body n loop n1,
    visitFor gen init cond post body n = some (none, loop, n1) →
    onStmt (.forStmt init cond post body) n loop loop n1
  stmt_block : ∀ l n l1 n1, visitStmts gen l n = some (l1, n1) → onStmts l n l1 n1 →
    onStmt (.block l) n (.block l1) (.block l1) n1
  stmt_if : ∀ init cond body els n body1 n1, visitBlock gen body n = some (body1, n1) →
    onBlock body n body1 n1 →
    onStmt (.ifStmt init cond body els) n (.ifStmt init cond body1 els)
      (.ifStmt init cond body1 els) n1
  stmt_switch : ∀ init tag body n body1 n1, visitBlock gen body n = some (body1, n1) →
    onBlock body n body1 n1 →
    onStmt (.switchStmt init tag body) n (.switchStmt init tag body1)
      (.switchStmt init tag body1) n1
  stmt_typeSwitch : ∀ init a body n body1 n1, visitBlock gen body n = some (body1, n1) →
    onBlock body n body1 n1 →
    onStmt (.typeSwitchStmt init a body) n (.typeSwitchStmt init a body1)
      (.typeSwitchStmt init a body1) n1
  stmt_case : ∀ list body n body1 n1, visitStmts gen body n = some (body1, n1) →
    onStmts body n body1 n1 →
    onStmt (.caseClause list body) n (.caseClause list body1) (.caseClause list body1) n1
  stmt_skip : ∀ s n, walked s = false → onStmt s n s s n
  stmts_nil : ∀ n, onStmts [] n [] n
  stmts_cons : ∀ s rest n slot node m rest1 n1, visitStmt gen s n = some (slot, node, m) →
    onStmt s n slot node m → visitStmts gen rest m = some (rest1, n1) →
    onStmts rest m rest1 n1 → onStmts (s :: rest) n (slot :: rest1) n1
  block_nil : ∀ n, onBlock none n none n
  block_some : ∀ l n l1 n1, visitStmts gen l n = some (l1, n1) → onStmts l n l1 n1 →
    onBlock (some l) n (some l1) n1

/-! ## The pass driver -/

/-- Top-level declarations of a parsed file: a `*ast.FuncDecl` with its `Body`
(`none` for a declaration without body), or any other declaration. -/
inductive Decl
  | funcDecl (name : String) (body : Option (List Stmt))
  | genDecl (tag : Nat)

/-- The loop over `file.Decls` of `PreprocFile`: `visitFunction` on every
function declaration, in order, with one generator. -/
def visitDecls (gen : Nat → String) (ds : List Decl) (n : Nat) : Option (List Decl × Nat) :=
  match ds with
  | [] => some ([], n)
  | .funcDecl name body :: rest =>
    match visitFunction gen body n with
    | none => none
    | some (body1, n1) =>
      match visitDecls gen rest n1 with
      | none => none
      | some (rest1, n2) => some (.funcDecl name body1 :: rest1, n2)
  | .genDecl tag :: rest =>
    match visitDecls gen rest n with
    | none => none
    | some (rest1, n2) => some (.genDecl tag :: rest1, n2)

/-- `PreprocFile source filename`.  The collaborators are parameters: `mkGen`
for `gensym.MkGen`, `parseFile` for `parser.ParseFile` (its result is the list
of declarations of the file, or the parser's error), `fprint` for
`printer.Fprint` into the buffer.  `none` is an abort of the run; otherwise the
result is `(result, err)`, with `none` for a nil error. -/
def PreprocFile (mkGen : String → Nat → String)
    (parseFile : String → String → Except String (List Decl))
    (fprint : List Decl → String) (source filename : String) :
    Option (String × Option String) :=
  match parseFile filename source with
  | .error err => some ("", some err)
  | .ok decls =>
    match visitDecls (mkGen source) decls 0 with
    | none => none
    | some (decls1, _) => some (fprint decls1, none)

/-- Whether an expression is a function literal. -/
def isFuncLit : Expr → Bool
  | .funcLit _ => true
  | _ => false

/-- The right-hand sides of an assignment. -/
def rhsOf : Stmt → List Expr
  | .assign _ _ rhs => rhs
  | _ => []

/-! ## More sample trees -/

/-- The statement `g(func() { for i := 0; i < f(); i++ {} })`. -/
def callWithFuncLit : Stmt :=
  .exprStmt (.call (.ident "g") [.funcLit (some [loopLt])])

/-- The statement `x := g(func() { for i := 0; i < f(); i++ {} })`. -/
def assignCallWithFuncLit : Stmt :=
  .assign [.ident "x"] Token.DEFINE [.call (.ident "g") [.funcLit (some [loopLt])]]

/-- The loop `for h := func() { { for j := 0; j < m; j++ {} } }; h < n; h++ {}`,
whose init expression is a function literal. -/
def loopFuncInit : Stmt :=
  .forStmt (some (.assign [.ident "h"] Token.DEFINE [.funcLit (some [.block [loopInner]])]))
    (some (.binary (.ident "h") Token.LSS (.ident "n")))
    (some (.incDec (.ident "h") Token.INC)) (some [])

/-! # Theorems -/

/-! ## The recognizers -/

theorem parseForInit_var {s : Option Stmt} {x : String} {ie : Option Expr} {ok : Bool}
    (h : parseForInit s = (some x, ie, ok)) :
    ∃ tok e, s = some (.assign [.ident x] tok [e]) ∧ ie = some e ∧ ok = true := by
  unfold parseForInit at h
  split at h
  · rename_i lhs tok rhs
    split at h
    · simp at h
    · rename_i hlen
      have hl : lhs.length = 1 := by omega
      have hr : rhs.length = 1 := by omega
      obtain ⟨a, rfl⟩ := List.length_eq_one.mp hl
      obtain ⟨b, rfl⟩ := List.length_eq_one.mp hr
      cases a <;> simp at h
      obtain ⟨rfl, rfl, rfl⟩ := h
      exact ⟨tok, b, rfl, rfl, rfl⟩
  · simp at h

theorem parseForCond_var {c : Option Expr} {x : String} {op : Token} {ce : Option Expr}
    {ok : Bool} (h : parseForCond c = (some x, op, ce, ok)) :
    ∃ b, c = some (.binary (.ident x) op b) ∧ ce = some b ∧ ok = true ∧
      (op = Token.LEQ ∨ op = Token.LSS ∨ op = Token.GTR ∨ op = Token.GEQ) := by
  unfold parseForCond at h
  split at h
  · rename_i l o r
    split at h
    · rename_i hop
      cases l <;> simp at h
      obtain ⟨rfl, rfl, rfl, rfl⟩ := h
      exact ⟨r, rfl, rfl, rfl, hop⟩
    · simp at h
  · simp at h

theorem parseForPost_var {s : Option Stmt} {x : String} {op : Token} {ok : Bool}
    (h : parseForPost s = (some x, op, ok)) :
    s = some (.incDec (.ident x) op) ∧ ok = true := by
  unfold parseForPost at h
  split at h
  · rename_i e tok
    cases e <;> simp at h
    obtain ⟨rfl, rfl, rfl⟩ := h
    exact ⟨rfl, rfl⟩
  · simp at h

theorem visitFor_canonical (gen : Nat → String) (x : String) (tok : Token) (initE : Expr)
    (op : Token) (bound : Expr) (ptok : Token) (body : Option (List Stmt)) (n : Nat)
    (hop : op = Token.LEQ ∨ op = Token.LSS ∨ op = Token.GTR ∨ op = Token.GEQ) :
    visitFor gen (some (.assign [.ident x] tok [initE])) (some (.binary (.ident x) op bound))
      (some (.incDec (.ident x) ptok)) body n =
    some (some (.block [hoistedDecl gen initE bound ptok n, hoistedLoop gen x tok op body n]),
      hoistedLoop gen x tok op body n, n + 3) := by
  simp [visitFor, parseForInit, parseForCond, parseForPost, hop, setInitExpr, setCondExpr,
    hoistedDecl, hoistedLoop]

theorem visitFor_block_inv {gen : Nat → String} {init : Option Stmt} {cond : Option Expr}
    {post : Option Stmt} {body : Option (List Stmt)} {n : Nat} {blk loop : Stmt} {n1 : Nat}
    (h : visitFor gen init cond post body n = some (some blk, loop, n1)) :
    ∃ x tok initE op bound ptok,
      init = some (.assign [.ident x] tok [initE]) ∧
      cond = some (.binary (.ident x) op bound) ∧
      post = some (.incDec (.ident x) ptok) ∧
      (op = Token.LEQ ∨ op = Token.LSS ∨ op = Token.GTR ∨ op = Token.GEQ) ∧
      blk = .block [hoistedDecl gen initE bound ptok n, hoistedLoop gen x tok op body n] ∧
      loop = hoistedLoop gen x tok op body n ∧ n1 = n + 3 := by
  unfold visitFor at h
  rcases hi : parseForInit init with ⟨initVar, initExpr, initOk⟩
  rcases hc : parseForCond cond with ⟨condVar, cop, condExpr, condOk⟩
  rcases hp : parseForPost post with ⟨postVar, postOp, postOk⟩
  rw [hi, hc, hp] at h
  simp only at h
  split at h
  · simp at h
  · split at h
    · simp at h
    · simp at h
    · rename_i iv cv
      split at h
      · simp at h
      · rename_i hiv
        split at h
        · simp at h
        · rename_i pv
          split at h
          · simp at h
          · rename_i hpv
            have e1 : iv = cv := by simpa using hiv
            have e2 : iv = pv := by simpa using hpv
            subst e1 e2
            obtain ⟨tok, e, rfl, rfl, rfl⟩ := parseForInit_var hi
            obtain ⟨b, rfl, rfl, rfl, hop⟩ := parseForCond_var hc
            obtain ⟨rfl, rfl⟩ := parseForPost_var hp
            simp [setInitExpr, setCondExpr] at h
            obtain ⟨rfl, rfl, rfl⟩ := h
            exact ⟨iv, tok, e, cop, b, postOp, rfl, rfl, rfl, hop, rfl, rfl, rfl⟩

/-! ## Induction along the walk -/

mutual
theorem walk_expr {gen : Nat → String} (M : WalkCases gen) :
    ∀ (e : Expr) (n : Nat) (e1 : Expr) (n1 : Nat),
      visitExpr gen e n = some (e1, n1) → M.onExpr e n e1 n1
  | .funcLit (some l), n, e1, n1, h => by
    unfold visitExpr at h
    cases hb : visitFuncBody gen l n with
    | none => simp [hb] at h
    | some r =>
      obtain ⟨l1, m⟩ := r
      simp only [hb, Option.some.injEq, Prod.mk.injEq] at h
      obtain ⟨rfl, rfl⟩ := h
      exact M.expr_funcLit l n l1 m hb (walk_funcBody M l n l1 m hb)
  | .funcLit none, n, e1, n1, h => by
    simp only [visitExpr, Option.some.injEq, Prod.mk.injEq] at h
    obtain ⟨rfl, rfl⟩ := h
    exact M.expr_skip _ _ (by simp)
  | .ident _, n, e1, n1, h => by
    simp only [visitExpr, Option.some.injEq, Prod.mk.injEq] at h
    obtain ⟨rfl, rfl⟩ := h
    exact M.expr_skip _ _ (by simp)
  | .basicLit _ _, n, e1, n1, h => by
    simp only [visitExpr, Option.some.injEq, Prod.mk.injEq] at h
    obtain ⟨rfl, rfl⟩ := h
    exact M.expr_skip _ _ (by simp)
  | .binary _ _ _, n, e1, n1, h => by
    simp only [visitExpr, Option.some.injEq, Prod.mk.injEq] at h
    obtain ⟨rfl, rfl⟩ := h
    exact M.expr_skip _ _ (by simp)
  | .unary _ _, n, e1, n1, h => by
    simp only [visitExpr, Option.some.injEq, Prod.mk.injEq] at h
    obtain ⟨rfl, rfl⟩ := h
    exact M.expr_skip _ _ (by simp)
  | .paren _, n, e1, n1, h => by
    simp only [visitExpr, Option.some.injEq, Prod.mk.injEq] at h
    obtain ⟨rfl, rfl⟩ := h
    exact M.expr_skip _ _ (by simp)
  | .call _ _, n, e1, n1, h => by
    simp only [visitExpr, Option.some.injEq, Prod.mk.injEq] at h
    obtain ⟨rfl, rfl⟩ := h
    exact M.expr_skip _ _ (by simp)
  | .other _, n, e1, n1, h => by
    simp only [visitExpr, Option.some.injEq, Prod.mk.injEq] at h
    obtain ⟨rfl, rfl⟩ := h
    exact M.expr_skip _ _ (by simp)
theorem walk_funcBody {gen : Nat → String} (M : WalkCases gen) :
    ∀ (l : List Stmt) (n : Nat) (l1 : List Stmt) (n1 : Nat),
      visitFuncBody gen l n = some (l1, n1) → M.onFuncBody l n l1 n1
  | [], n, l1, n1, h => by
    simp only [visitFuncBody, Option.some.injEq, Prod.mk.injEq] at h
    obtain ⟨rfl, rfl⟩ := h
    exact M.funcBody_nil n
  | s :: rest, n, l1, n1, h => by
    unfold visitFuncBody at h
    cases hs : visitStmt gen s n with
    | none => simp [hs] at h
    | some r =>
      obtain ⟨slot, node, m⟩ := r
      simp only [hs] at h
      cases hr : visitFuncBody gen rest m with
      | none => simp [hr] at h
      | some r2 =>
        obtain ⟨rest1, m2⟩ := r2
        simp only [hr, Option.some.injEq, Prod.mk.injEq] at h
        obtain ⟨rfl, rfl⟩ := h
        exact M.funcBody_cons s rest n slot node m rest1 m2 hs (walk_stmt M s n slot node m hs)
          hr (walk_funcBody M rest m rest1 m2 hr)
theorem walk_rhs {gen : Nat → String} (M : WalkCases gen) :
    ∀ (es : List Expr) (n : Nat) (es1 : List Expr) (n1 : Nat),
      visitRhs gen es n = some (es1, n1) → M.onRhs es n es1 n1
  | [], n, l1, n1, h => by
    simp only [visitRhs, Option.some.injEq, Prod.mk.injEq] at h
    obtain ⟨rfl, rfl⟩ := h
    exact M.rhs_nil n
  | e :: rest, n, l1, n1, h => by
    unfold visitRhs at h
    cases hs : visitExpr gen e n with
    | none => simp [hs] at h
    | some r =>
      obtain ⟨e1, m⟩ := r
      simp only [hs] at h
      cases hr : visitRhs gen rest m with
      | none => simp [hr] at h
      | some r2 =>
        obtain ⟨rest1, m2⟩ := r2
        simp only [hr, Option.some.injEq, Prod.mk.injEq] at h
        obtain ⟨rfl, rfl⟩ := h
        exact M.rhs_cons e rest n e1 m rest1 m2 hs (walk_expr M e n e1 m hs)
          hr (walk_rhs M rest m rest1 m2 hr)
theorem walk_stmt {gen : Nat → String} (M : WalkCases gen) :
    ∀ (s : Stmt) (n : Nat) (slot node : Stmt) (n1 : Nat),
      visitStmt gen s n = some (slot, node, n1) → M.onStmt s n slot node n1
  | .assign lhs tok rhs, n, slot, node, n1, h => by
    unfold visitStmt at h
    cases hb : visitRhs gen rhs n with
    | none => simp [hb] at h
    | some r =>
      obtain ⟨rhs1, m⟩ := r
      simp only [hb, Option.some.injEq, Prod.mk.injEq] at h
      obtain ⟨rfl, rfl, rfl⟩ := h
      exact M.stmt_assign lhs tok rhs n rhs1 m hb (walk_rhs M rhs n rhs1 m hb)
  | .forStmt init cond post body, n, slot, node, n1, h => by
    unfold visitStmt at h
    cases hb : visitFor gen init cond post body n with
    | none => simp [hb] at h
    | some r =>
      obtain ⟨blk, loop, m⟩ := r
      cases blk with
      | none =>
        simp only [hb, Option.some.injEq, Prod.mk.injEq] at h
        obtain ⟨rfl, rfl, rfl⟩ := h
        exact M.stmt_for_skip init cond post body n loop m hb
      | some b =>
        simp only [hb, Option.some.injEq, Prod.mk.injEq] at h
        obtain ⟨rfl, rfl, rfl⟩ := h
        exact M.stmt_for_match init cond post body n b loop m hb
  | .block l, n, slot, node, n1, h => by
    unfold visitStmt at h
    cases hb : visitStmts gen l n with
    | none => simp [hb] at h
    | some r =>
      obtain ⟨l1, m⟩ := r
      simp only [hb, Option.some.injEq, Prod.mk.injEq] at h
      obtain ⟨rfl, rfl, rfl⟩ := h
      exact M.stmt_block l n l1 m hb (walk_stmts M l n l1 m hb)
  | .ifStmt init cond body els, n, slot, node, n1, h => by
    unfold visitStmt at h
    cases hb : visitBlock gen body n with
    | none => simp [hb] at h
    | some r =>
      obtain ⟨b1, m⟩ := r
      simp only [hb, Option.some.injEq, Prod.mk.injEq] at h
      obtain ⟨rfl, rfl, rfl⟩ := h
      exact M.stmt_if init cond body els n b1 m hb (walk_block M body n b1 m hb)
  | .switchStmt init tag body, n, slot, node, n1, h => by
    unfold visitStmt at h
    cases hb : visitBlock gen body n with
    | none => simp [hb] at h
    | some r =>
      obtain ⟨b1, m⟩ := r
      simp only [hb, Option.some.injEq, Prod.mk.injEq] at h
      obtain ⟨rfl, rfl, rfl⟩ := h
      exact M.stmt_switch init tag body n b1 m hb (walk_block M body n b1 m hb)
  | .typeSwitchStmt init a body, n, slot, node, n1, h => by
    unfold visitStmt at h
    cases hb : visitBlock gen body n with
    | none => simp [hb] at h
    | some r =>
      obtain ⟨b1, m⟩ := r
      simp only [hb, Option.some.injEq, Prod.mk.injEq] at h
      obtain ⟨rfl, rfl, rfl⟩ := h
      exact M.stmt_typeSwitch init a body n b1 m hb (walk_block M body n b1 m hb)
  | .caseClause list body, n, slot, node, n1, h => by
    unfold visitStmt at h
    cases hb : visitStmts gen body n with
    | none => simp [hb] at h
    | some r =>
      obtain ⟨l1, m⟩ := r
      simp only [hb, Option.some.injEq, Prod.mk.injEq] at h
      obtain ⟨rfl, rfl, rfl⟩ := h
      exact M.stmt_case list body n l1 m hb (walk_stmts M body n l1 m hb)
  | .incDec _ _, n, slot, node, n1, h => by
    simp only [visitStmt, Option.some.injEq, Prod.mk.injEq] at h
    obtain ⟨rfl, rfl, rfl⟩ := h
    exact M.stmt_skip _ _ rfl
  | .exprStmt _, n, slot, node, n1, h => by
    simp only [visitStmt, Option.some.injEq, Prod.mk.injEq] at h
    obtain ⟨rfl, rfl, rfl⟩ := h
    exact M.stmt_skip _ _ rfl
  | .rangeStmt _ _ _ _ _, n, slot, node, n1, h => by
    simp only [visitStmt, Option.some.injEq, Prod.mk.injEq] at h
    obtain ⟨rfl, rfl, rfl⟩ := h
    exact M.stmt_skip _ _ rfl
  | .labeled _ _, n, slot, node, n1, h => by
    simp only [visitStmt, Option.some.injEq, Prod.mk.injEq] at h
    obtain ⟨rfl, rfl, rfl⟩ := h
    exact M.stmt_skip _ _ rfl
  | .goStmt _, n, slot, node, n1, h => by
    simp only [visitStmt, Option.some.injEq, Prod.mk.injEq] at h
    obtain ⟨rfl, rfl, rfl⟩ := h
    exact M.stmt_skip _ _ rfl
  | .deferStmt _, n, slot, node, n1, h => by
    simp only [visitStmt, Option.some.injEq, Prod.mk.injEq] at h
    obtain ⟨rfl, rfl, rfl⟩ := h
    exact M.stmt_skip _ _ rfl
  | .other _, n, slot, node, n1, h => by
    simp only [visitStmt, Option.some.injEq, Prod.mk.injEq] at h
    obtain ⟨rfl, rfl, rfl⟩ := h
    exact M.stmt_skip _ _ rfl
theorem walk_stmts {gen : Nat → String} (M : WalkCases gen) :
    ∀ (l : List Stmt) (n : Nat) (l1 : List Stmt) (n1 : Nat),
      visitStmts gen l n = some (l1, n1) → M.onStmts l n l1 n1
  | [], n, l1, n1, h => by
    simp only [visitStmts, Option.some.injEq, Prod.mk.injEq] at h
    obtain ⟨rfl, rfl⟩ := h
    exact M.stmts_nil n
  | s :: rest, n, l1, n1, h => by
    unfold visitStmts at h
    cases hs : visitStmt gen s n with
    | none => simp [hs] at h
    | some r =>
      obtain ⟨slot, node, m⟩ := r
      simp only [hs] at h
      cases hr : visitStmts gen rest m with
      | none => simp [hr] at h
      | some r2 =>
        obtain ⟨rest1, m2⟩ := r2
        simp only [hr, Option.some.injEq, Prod.mk.injEq] at h
        obtain ⟨rfl, rfl⟩ := h
        exact M.stmts_cons s rest n slot node m rest1 m2 hs (walk_stmt M s n slot node m hs)
          hr (walk_stmts M rest m rest1 m2 hr)
theorem walk_block {gen : Nat → String} (M : WalkCases gen) :
    ∀ (b : Option (List Stmt)) (n : Nat) (b1 : Option (List Stmt)) (n1 : Nat),
      visitBlock gen b n = some (b1, n1) → M.onBlock b n b1 n1
  | none, n, b1, n1, h => by
    simp only [visitBlock, Option.some.injEq, Prod.mk.injEq] at h
    obtain ⟨rfl, rfl⟩ := h
    exact M.block_nil n
  | some l, n, b1, n1, h => by
    unfold visitBlock at h
    cases hb : visitStmts gen l n with
    | none => simp [hb] at h
    | some r =>
      obtain ⟨l1, m⟩ := r
      simp only [hb, Option.some.injEq, Prod.mk.injEq] at h
      obtain ⟨rfl, rfl⟩ := h
      exact M.block_some l n l1 m hb (walk_stmts M l n l1 m hb)
end

theorem initTarget_inv {s : Option Stmt} {x : String} (h : initTarget s = some x) :
    ∃ tok e, s = some (.assign [.ident x] tok [e]) := by
  unfold initTarget at h
  split at h
  · rename_i y tok e
    simp only [Option.some.injEq] at h
    subst h
    exact ⟨tok, e, rfl⟩
  · simp at h

theorem condTarget_inv {c : Option Expr} {x : String} (h : condTarget c = some x) :
    ∃ op b, c = some (.binary (.ident x) op b) ∧
      (op = Token.LEQ ∨ op = Token.LSS ∨ op = Token.GTR ∨ op = Token.GEQ) := by
  unfold condTarget at h
  split at h
  · rename_i y op b
    split at h
    · rename_i hop
      simp only [Option.some.injEq] at h
      subst h
      exact ⟨op, b, rfl, by tauto⟩
    · simp at h
  · simp at h

theorem postTarget_inv {s : Option Stmt} {x : String} (h : postTarget s = some x) :
    ∃ ptok, s = some (.incDec (.ident x) ptok) := by
  unfold postTarget at h
  split at h
  · rename_i y tok
    simp only [Option.some.injEq] at h
    subst h
    exact ⟨tok, rfl⟩
  · simp at h

theorem eligible_iff (init : Option Stmt) (cond : Option Expr) (post : Option Stmt) :
    eligible init cond post = true ↔
      ∃ x tok e op b ptok, init = some (.assign [.ident x] tok [e]) ∧
        cond = some (.binary (.ident x) op b) ∧ post = some (.incDec (.ident x) ptok) ∧
        (op = Token.LEQ ∨ op = Token.LSS ∨ op = Token.GTR ∨ op = Token.GEQ) := by
  constructor
  · intro h
    unfold eligible at h
    split at h
    · rename_i x y z hi hc hp
      have hxyz : x = y ∧ x = z := by simpa using h
      obtain ⟨rfl, rfl⟩ := hxyz
      obtain ⟨tok, e, rfl⟩ := initTarget_inv hi
      obtain ⟨op, b, rfl, hop⟩ := condTarget_inv hc
      obtain ⟨ptok, rfl⟩ := postTarget_inv hp
      exact ⟨x, tok, e, op, b, ptok, rfl, rfl, rfl, hop⟩
    · simp at h
  · rintro ⟨x, tok, e, op, b, ptok, rfl, rfl, rfl, hop⟩
    have hop2 : op = Token.LSS ∨ op = Token.LEQ ∨ op = Token.GTR ∨ op = Token.GEQ := by tauto
    simp [eligible, initTarget, condTarget, postTarget, hop2]

theorem visitFor_skip_inv {gen : Nat → String} {init : Option Stmt} {cond : Option Expr}
    {post : Option Stmt} {body : Option (List Stmt)} {n : Nat} {loop : Stmt} {n1 : Nat}
    (h : visitFor gen init cond post body n = some (none, loop, n1)) :
    loop = .forStmt init cond post body ∧ n1 = n ∧ eligible init cond post = false := by
  have hne : eligible init cond post = false := by
    cases he : eligible init cond post with
    | false => rfl
    | true =>
      obtain ⟨x, tok, e, op, b, ptok, rfl, rfl, rfl, hop⟩ := (eligible_iff _ _ _).mp he
      rw [visitFor_canonical gen x tok e op b ptok body n hop] at h
      simp at h
  refine ⟨?_, ?_, hne⟩ <;>
  · unfold visitFor at h
    rcases parseForInit init with ⟨initVar, initExpr, initOk⟩
    rcases parseForCond cond with ⟨condVar, cop, condExpr, condOk⟩
    rcases parseForPost post with ⟨postVar, postOp, postOk⟩
    simp only at h
    repeat' split at h
    all_goals simp_all

/-! ## Claims about the rewriter and the recognizers -/

/-- C1: on `for i := 0; i != n; i++ {}` the condition recognizer reports success
with an absent identifier, and `visitFor` dereferences it: the call aborts, and
so does the walk of a function body that holds the loop. -/
theorem visitFor_aborts_on_neq (gen : Nat → String) (n : Nat) :
    visitFor gen (some initI) (some (.binary (.ident "i") Token.NEQ (.ident "n")))
        (some postI) (some []) n = none ∧
      visitFunction gen (some [loopNeq]) n = none := by
  constructor <;> rfl

/-- C2: on `for x TOK init; x OP bound; x++ (or x--) body` with `OP` one of
`<`, `<=`, `>`, `>=`, `visitFor` returns the two-statement block
`a, b, c := init, bound, lit; for x TOK a; x OP b; x += c body`, where `a`, `b`,
`c` are the next three generator outputs in order and `lit` is an integer
literal; the loop node it leaves behind is the second statement of the block. -/
theorem visitFor_returns_hoisted_block (gen : Nat → String) (x : String) (tok : Token)
    (initE : Expr) (op : Token) (bound : Expr) (ptok : Token) (body : Option (List Stmt))
    (n : Nat) (hop : op = Token.LSS ∨ op = Token.LEQ ∨ op = Token.GTR ∨ op = Token.GEQ)
    (hp : ptok = Token.INC ∨ ptok = Token.DEC) :
    ∃ lit, (lit = "1" ∨ lit = "-1") ∧
      visitFor gen (some (.assign [.ident x] tok [initE]))
        (some (.binary (.ident x) op bound)) (some (.incDec (.ident x) ptok)) body n =
      some (some (.block
        [.assign [.ident (gen n), .ident (gen (n + 1)), .ident (gen (n + 2))] Token.DEFINE
            [initE, bound, .basicLit Token.INT lit],
         .forStmt (some (.assign [.ident x] tok [.ident (gen n)]))
            (some (.binary (.ident x) op (.ident (gen (n + 1)))))
            (some (.assign [.ident x] Token.ADD_ASSIGN [.ident (gen (n + 2))])) body]),
        .forStmt (some (.assign [.ident x] tok [.ident (gen n)]))
            (some (.binary (.ident x) op (.ident (gen (n + 1)))))
            (some (.assign [.ident x] Token.ADD_ASSIGN [.ident (gen (n + 2))])) body,
        n + 3) := by
  have hop2 : op = Token.LEQ ∨ op = Token.LSS ∨ op = Token.GTR ∨ op = Token.GEQ := by tauto
  refine ⟨incVarValue ptok, ?_, visitFor_canonical gen x tok initE op bound ptok body n hop2⟩
  rcases hp with rfl | rfl
  · exact Or.inl rfl
  · exact Or.inr rfl

theorem visitFor_returns_hoisted_block_witness :
    ∃ lit, (lit = "1" ∨ lit = "-1") ∧
      visitFor sampleGen (some (.assign [.ident "i"] Token.DEFINE [.basicLit Token.INT "0"]))
        (some (.binary (.ident "i") Token.LSS (.call (.ident "f") [])))
        (some (.incDec (.ident "i") Token.INC)) (some []) 0 =
      some (some (.block
        [.assign [.ident (sampleGen 0), .ident (sampleGen (0 + 1)), .ident (sampleGen (0 + 2))]
            Token.DEFINE [.basicLit Token.INT "0", .call (.ident "f") [], .basicLit Token.INT lit],
         .forStmt (some (.assign [.ident "i"] Token.DEFINE [.ident (sampleGen 0)]))
            (some (.binary (.ident "i") Token.LSS (.ident (sampleGen (0 + 1)))))
            (some (.assign [.ident "i"] Token.ADD_ASSIGN [.ident (sampleGen (0 + 2))]))
            (some [])]),
        .forStmt (some (.assign [.ident "i"] Token.DEFINE [.ident (sampleGen 0)]))
            (some (.binary (.ident "i") Token.LSS (.ident (sampleGen (0 + 1)))))
            (some (.assign [.ident "i"] Token.ADD_ASSIGN [.ident (sampleGen (0 + 2))]))
            (some []),
        0 + 3) :=
  visitFor_returns_hoisted_block sampleGen "i" Token.DEFINE (.basicLit Token.INT "0")
    Token.LSS (.call (.ident "f") []) Token.INC (some []) 0 (Or.inl rfl) (Or.inl rfl)

/-- C3: on `for i, j := 0, 0; i < n; i++ {}`, whose init has two targets, the
init recognizer reports success with an absent identifier and `visitStmt`
aborts instead of leaving the loop as it is. -/
theorem visitStmt_aborts_on_two_targets (gen : Nat → String) (n : Nat) :
    parseForInit (some (.assign [.ident "i", .ident "j"] Token.DEFINE
        [.basicLit Token.INT "0", .basicLit Token.INT "0"])) = (none, none, true) ∧
      visitStmt gen loopTwoVars n = none := by
  constructor <;> rfl

/-- C4: `visitFor` returns a replacement block exactly on the eligible
headers: init a single-target single-value assignment to an identifier,
condition a binary `<`, `<=`, `>`, `>=` with an identifier on the left, post an
increment or decrement of an identifier, all three with the same name. -/
theorem visitFor_block_iff_eligible (gen : Nat → String) (init : Option Stmt)
    (cond : Option Expr) (post : Option Stmt) (body : Option (List Stmt)) (n : Nat) :
    (∃ blk loop n1, visitFor gen init cond post body n = some (some blk, loop, n1)) ↔
      eligible init cond post = true := by
  constructor
  · rintro ⟨blk, loop, n1, h⟩
    obtain ⟨x, tok, e, op, b, ptok, hi, hc, hp, hop, -⟩ := visitFor_block_inv h
    exact (eligible_iff _ _ _).mpr ⟨x, tok, e, op, b, ptok, hi, hc, hp, hop⟩
  · intro h
    obtain ⟨x, tok, e, op, b, ptok, rfl, rfl, rfl, hop⟩ := (eligible_iff _ _ _).mp h
    exact ⟨_, _, _, visitFor_canonical gen x tok e op b ptok body n hop⟩

/-- C5: on the condition `i != n`, a binary operation whose operator is not a
comparison `<`, `<=`, `>`, `>=`, `parseForCond` reports `ok = true` with an
absent identifier and an absent bound. -/
theorem parseForCond_ok_on_neq :
    parseForCond (some (.binary (.ident "i") Token.NEQ (.ident "n"))) =
      (none, Token.ILLEGAL, none, true) := by
  rfl

/-- C6: on `f := func() { for i := 0; i < f(); i++ {} }` the walk rewrites the
header of the loop in place but the function literal keeps the loop node: the
two-statement block is lost, the declaration of the three names with the init
and bound expressions is nowhere in the result, and three names are drawn. -/
theorem visitStmt_funcLit_loses_declaration (gen : Nat → String) (n : Nat) :
    visitStmt gen assignFuncLit n =
      some (.assign [.ident "f"] Token.DEFINE
              [.funcLit (some [hoistedLoop gen "i" Token.DEFINE Token.LSS (some []) n])],
            .assign [.ident "f"] Token.DEFINE
              [.funcLit (some [hoistedLoop gen "i" Token.DEFINE Token.LSS (some []) n])],
            n + 3) := by
  rfl

/-- C7: on every eligible loop the post statement is `x++` or `x--` for an
identifier `x` and `visitFor` returns a block whose declaration has, as third
right-hand side, the integer literal `1` when the post statement is `++` and
`-1` when it is `--`; in both cases the post statement of the rewritten loop is
`x += c` with `c` the third name drawn, which is the third left-hand name of the
declaration. -/
theorem visitFor_direction (gen : Nat → String) (init : Option Stmt) (cond : Option Expr)
    (post : Option Stmt) (body : Option (List Stmt)) (n : Nat)
    (h : eligible init cond post = true) :
    ∃ x ptok a b r1 r2 lit init1 cond1 loop n1,
      post = some (.incDec (.ident x) ptok) ∧
      visitFor gen init cond post body n =
        some (some (.block
          [.assign [a, b, .ident (gen (n + 2))] Token.DEFINE [r1, r2, .basicLit Token.INT lit],
           .forStmt init1 cond1
             (some (.assign [.ident x] Token.ADD_ASSIGN [.ident (gen (n + 2))])) body]),
          loop, n1) ∧
      (ptok = Token.INC → lit = "1") ∧ (ptok = Token.DEC → lit = "-1") := by
  obtain ⟨x, tok, e, op, b, ptok, rfl, rfl, rfl, hop⟩ := (eligible_iff _ _ _).mp h
  refine ⟨x, ptok, _, _, e, b, incVarValue ptok, _, _, _, _, rfl,
    visitFor_canonical gen x tok e op b ptok body n hop, ?_, ?_⟩
  · rintro rfl; rfl
  · rintro rfl; rfl

theorem visitFor_direction_witness :
    ∃ x ptok a b r1 r2 lit init1 cond1 loop n1,
      some (Stmt.incDec (.ident "i") Token.DEC) = some (.incDec (.ident x) ptok) ∧
      visitFor sampleGen (some (.assign [.ident "i"] Token.DEFINE [.basicLit Token.INT "9"]))
          (some (.binary (.ident "i") Token.GEQ (.basicLit Token.INT "0")))
          (some (.incDec (.ident "i") Token.DEC)) (some []) 0 =
        some (some (.block
          [.assign [a, b, .ident (sampleGen (0 + 2))] Token.DEFINE
             [r1, r2, .basicLit Token.INT lit],
           .forStmt init1 cond1
             (some (.assign [.ident x] Token.ADD_ASSIGN [.ident (sampleGen (0 + 2))]))
             (some [])]),
          loop, n1) ∧
      (ptok = Token.INC → lit = "1") ∧ (ptok = Token.DEC → lit = "-1") :=
  visitFor_direction sampleGen
    (some (.assign [.ident "i"] Token.DEFINE [.basicLit Token.INT "9"]))
    (some (.binary (.ident "i") Token.GEQ (.basicLit Token.INT "0")))
    (some (.incDec (.ident "i") Token.DEC)) (some []) 0 (by decide)

/-! ## Names drawn during a walk -/

theorem drawsFor_nil (gen : Nat → String) (n : Nat) : DrawsFor gen [] n n := by
  simp [DrawsFor]

theorem drawsFor_append {gen : Nat → String} {ds es : List Stmt} {n m n1 : Nat}
    (h1 : DrawsFor gen ds n m) (h2 : DrawsFor gen es m n1) : DrawsFor gen (ds ++ es) n n1 := by
  obtain ⟨a1, b1, c1⟩ := h1
  obtain ⟨a2, b2, c2⟩ := h2
  refine ⟨by simp; omega, ?_, ?_⟩
  · intro d hd
    rcases List.mem_append.mp hd with hd | hd
    · exact b1 d hd
    · exact b2 d hd
  · have hsplit : List.range' n (3 * (ds ++ es).length) =
        List.range' n (3 * ds.length) ++ List.range' m (3 * es.length) := by
      rw [a1, List.range'_append_1]
      congr 1
      simp
      omega
    rw [hsplit, List.map_append, List.map_append, List.flatten_append, c1, c2]

theorem drawsFor_for {gen : Nat → String} {init : Option Stmt} {cond : Option Expr}
    {post : Option Stmt} {body : Option (List Stmt)} {n : Nat} {blk loop : Stmt} {n1 : Nat}
    (h : visitFor gen init cond post body n = some (some blk, loop, n1)) :
    DrawsFor gen (declsStmt gen (.forStmt init cond post body) n) n n1 := by
  obtain ⟨x, tok, e, op, b, ptok, rfl, rfl, rfl, hop, rfl, rfl, rfl⟩ := visitFor_block_inv h
  unfold declsStmt
  rw [h]
  simp [DrawsFor, hoistedDecl, lhsNames, List.range'_succ]

theorem declsExpr_skip (gen : Nat → String) (e : Expr) (n : Nat)
    (h : ∀ l, e ≠ .funcLit (some l)) : declsExpr gen e n = [] := by
  cases e with
  | funcLit b =>
    cases b with
    | none => simp [declsExpr]
    | some l => exact absurd rfl (h l)
  | _ => simp [declsExpr]

theorem declsStmt_skip (gen : Nat → String) (s : Stmt) (n : Nat) (h : walked s = false) :
    declsStmt gen s n = [] := by
  cases s <;> simp [walked] at h <;> simp [declsStmt]

/-- Along every successful run of a walker function, the declarations built
account for the names drawn. -/
theorem draws_all (gen : Nat → String) :
    (∀ e n e1 n1, visitExpr gen e n = some (e1, n1) → DrawsFor gen (declsExpr gen e n) n n1) ∧
    (∀ s n slot node n1, visitStmt gen s n = some (slot, node, n1) →
      DrawsFor gen (declsStmt gen s n) n n1) ∧
    (∀ l n l1 n1, visitStmts gen l n = some (l1, n1) →
      DrawsFor gen (declsStmts gen l n) n n1) ∧
    (∀ b n b1 n1, visitBlock gen b n = some (b1, n1) →
      DrawsFor gen (declsBlock gen b n) n n1) := by
  let M : WalkCases gen :=
    { onExpr := fun e n _ n1 => DrawsFor gen (declsExpr gen e n) n n1
      onFuncBody := fun l n _ n1 => DrawsFor gen (declsFuncBody gen l n) n n1
      onRhs := fun es n _ n1 => DrawsFor gen (declsRhs gen es n) n n1
      onStmt := fun s n _ _ n1 => DrawsFor gen (declsStmt gen s n) n n1
      onStmts := fun l n _ n1 => DrawsFor gen (declsStmts gen l n) n n1
      onBlock := fun b n _ n1 => DrawsFor gen (declsBlock gen b n) n n1
      expr_funcLit := by
        intro l n l1 n1 _ ih
        simpa [declsExpr] using ih
      expr_skip := by
        intro e n h
        rw [declsExpr_skip gen e n h]
        exact drawsFor_nil gen n
      funcBody_nil := by
        intro n
        simpa [declsFuncBody] using drawsFor_nil gen n
      funcBody_cons := by
        intro s rest n slot node m rest1 n1 hs ih1 _ ih2
        have := drawsFor_append ih1 ih2
        simpa [declsFuncBody, hs] using this
      rhs_nil := by
        intro n
        simpa [declsRhs] using drawsFor_nil gen n
      rhs_cons := by
        intro e rest n e1 m rest1 n1 hs ih1 _ ih2
        have := drawsFor_append ih1 ih2
        simpa [declsRhs, hs] using this
      stmt_assign := by
        intro lhs tok rhs n rhs1 n1 _ ih
        simpa [declsStmt] using ih
      stmt_for_match := by
        intro init cond post body n blk loop n1 h
        exact drawsFor_for h
      stmt_for_skip := by
        intro init cond post body n loop n1 h
        obtain ⟨-, rfl, -⟩ := visitFor_skip_inv h
        have : declsStmt gen (.forStmt init cond post body) n1 = [] := by
          simp [declsStmt, h]
        rw [this]
        exact drawsFor_nil gen n1
      stmt_block := by
        intro l n l1 n1 _ ih
        simpa [declsStmt] using ih
      stmt_if := by
        intro init cond body els n body1 n1 _ ih
        simpa [declsStmt] using ih
      stmt_switch := by
        intro init tag body n body1 n1 _ ih
        simpa [declsStmt] using ih
      stmt_typeSwitch := by
        intro init a body n body1 n1 _ ih
        simpa [declsStmt] using ih
      stmt_case := by
        intro list body n body1 n1 _ ih
        simpa [declsStmt] using ih
      stmt_skip := by
        intro s n h
        rw [declsStmt_skip gen s n h]
        exact drawsFor_nil gen n
      stmts_nil := by
        intro n
        simpa [declsStmts] using drawsFor_nil gen n
      stmts_cons := by
        intro s rest n slot node m rest1 n1 hs ih1 _ ih2
        have := drawsFor_append ih1 ih2
        simpa [declsStmts, hs] using this
      block_nil := by
        intro n
        simpa [declsBlock] using drawsFor_nil gen n
      block_some := by
        intro l n l1 n1 _ ih
        simpa [declsBlock] using ih }
  exact ⟨walk_expr M, walk_stmt M, walk_stmts M, walk_block M⟩

theorem visitFunction_draws {gen : Nat → String} {fbody out : Option (List Stmt)} {n n1 : Nat}
    (h : visitFunction gen fbody n = some (out, n1)) :
    DrawsFor gen (declsBlock gen fbody n) n n1 := by
  cases fbody with
  | none =>
    simp only [visitFunction, Option.some.injEq, Prod.mk.injEq] at h
    obtain ⟨-, rfl⟩ := h
    simpa [declsBlock] using drawsFor_nil gen n
  | some l => exact (draws_all gen).2.2.2 (some l) n out n1 h

theorem sampleGen_injective : Function.Injective sampleGen := by
  intro a b h
  have := congrArg String.length h
  simpa [sampleGen, String.length] using this

theorem sampleGen_ne_of_head (k : Nat) (c : Char) (cs : List Char) (hc : c ≠ 'v') :
    sampleGen k ≠ String.mk (c :: cs) := by
  intro h
  have := congrArg String.data h
  simp [sampleGen, List.replicate_succ] at this
  exact hc this.1.symm

/-! ## Claims about the walk -/

/-- C8: if the generator never repeats a name and yields no identifier of the
function body, then on every body on which the walk completes the left-hand
names of the declarations built by the rewrites of that walk, three per
declaration, are pairwise distinct, within one declaration and across
declarations, and none of them is an identifier of the original body. -/
theorem introduced_names_fresh (gen : Nat → String) (fbody out : Option (List Stmt))
    (n n1 : Nat) (hinj : Function.Injective gen) (hfresh : ∀ k, gen k ∉ identsBody fbody)
    (h : visitFunction gen fbody n = some (out, n1)) :
    (∀ d ∈ declsBlock gen fbody n, (lhsNames d).length = 3) ∧
    (((declsBlock gen fbody n).map lhsNames).flatten).Nodup ∧
    ∀ x ∈ ((declsBlock gen fbody n).map lhsNames).flatten, x ∉ identsBody fbody := by
  obtain ⟨-, h3, hnames⟩ := visitFunction_draws h
  refine ⟨h3, ?_, ?_⟩
  · rw [hnames]
    exact (List.nodup_range' _ _).map hinj
  · intro x hx
    rw [hnames] at hx
    obtain ⟨k, -, rfl⟩ := List.mem_map.mp hx
    exact hfresh k

/-- C9: `visitFor` leaves the generator three names further when it returns a
block and where it was when it returns nil; a completed walk of a function body
draws three names for each loop on which `visitFor` returned a block. -/
theorem names_drawn_three_per_rewrite (gen : Nat → String) (fbody out : Option (List Stmt))
    (n n1 : Nat) (h : visitFunction gen fbody n = some (out, n1)) :
    n1 = n + 3 * (declsBlock gen fbody n).length ∧
    (∀ init cond post body k blk loop k1,
      visitFor gen init cond post body k = some (some blk, loop, k1) → k1 = k + 3) ∧
    (∀ init cond post body k loop k1,
      visitFor gen init cond post body k = some (none, loop, k1) → k1 = k) := by
  refine ⟨(visitFunction_draws h).1, ?_, ?_⟩
  · intro init cond post body k blk loop k1 hk
    obtain ⟨_, _, _, _, _, _, -, -, -, -, -, -, rfl⟩ := visitFor_block_inv hk
    rfl
  · intro init cond post body k loop k1 hk
    exact (visitFor_skip_inv hk).2.1

theorem sampleGen_fresh_loopLt : ∀ k, sampleGen k ∉ identsBody (some [loopLt]) := by
  intro k hk
  have hi : sampleGen k ≠ "i" := sampleGen_ne_of_head k 'i' [] (by decide)
  have hf : sampleGen k ≠ "f" := sampleGen_ne_of_head k 'f' [] (by decide)
  simp [identsBody, identsStmts, identsStmt, identsExpr, identsExprs, loopLt, initI, postI,
    hi, hf] at hk

theorem introduced_names_fresh_witness :
    (∀ d ∈ declsBlock sampleGen (some [loopLt]) 0, (lhsNames d).length = 3) ∧
    (((declsBlock sampleGen (some [loopLt]) 0).map lhsNames).flatten).Nodup ∧
    ∀ x ∈ ((declsBlock sampleGen (some [loopLt]) 0).map lhsNames).flatten,
      x ∉ identsBody (some [loopLt]) :=
  introduced_names_fresh sampleGen (some [loopLt])
    (some [.block [hoistedDecl sampleGen (.basicLit Token.INT "0") (.call (.ident "f") [])
      Token.INC 0, hoistedLoop sampleGen "i" Token.DEFINE Token.LSS (some []) 0]]) 0 3
    sampleGen_injective sampleGen_fresh_loopLt (by rfl)

theorem names_drawn_three_per_rewrite_witness :
    3 = 0 + 3 * (declsBlock sampleGen (some [loopLt]) 0).length ∧
    (∀ init cond post body k blk loop k1,
      visitFor sampleGen init cond post body k = some (some blk, loop, k1) → k1 = k + 3) ∧
    (∀ init cond post body k loop k1,
      visitFor sampleGen init cond post body k = some (none, loop, k1) → k1 = k) :=
  names_drawn_three_per_rewrite sampleGen (some [loopLt])
    (some [.block [hoistedDecl sampleGen (.basicLit Token.INT "0") (.call (.ident "f") [])
      Token.INC 0, hoistedLoop sampleGen "i" Token.DEFINE Token.LSS (some []) 0]]) 0 3
    (by rfl)

/-! ## Positions reached by the walk -/

theorem visitStmt_mono {gen : Nat → String} {s slot node : Stmt} {n n1 : Nat}
    (h : visitStmt gen s n = some (slot, node, n1)) : n ≤ n1 := by
  have := ((draws_all gen).2.1 s n slot node n1 h).1
  omega

theorem visitStmts_mono {gen : Nat → String} {l l1 : List Stmt} {n n1 : Nat}
    (h : visitStmts gen l n = some (l1, n1)) : n ≤ n1 := by
  have := ((draws_all gen).2.2.1 l n l1 n1 h).1
  omega

/-- The slot at index `i` of a walked sequence is the result of `visitStmt` on
the statement it held, run from some intermediate generator state. -/
theorem visitStmts_getElem? {gen : Nat → String} :
    ∀ (l : List Stmt) (n : Nat) (l1 : List Stmt) (n1 : Nat) (i : Nat) (s : Stmt),
      visitStmts gen l n = some (l1, n1) → l[i]? = some s →
      ∃ m slot node m1, n ≤ m ∧ m1 ≤ n1 ∧ visitStmt gen s m = some (slot, node, m1) ∧
        l1[i]? = some slot
  | [], n, l1, n1, i, s, _, hi => by simp at hi
  | t :: rest, n, l1, n1, i, s, h, hi => by
    unfold visitStmts at h
    cases hs : visitStmt gen t n with
    | none => simp [hs] at h
    | some r =>
      obtain ⟨slot, node, m⟩ := r
      simp only [hs] at h
      cases hr : visitStmts gen rest m with
      | none => simp [hr] at h
      | some r2 =>
        obtain ⟨rest1, m2⟩ := r2
        simp only [hr, Option.some.injEq, Prod.mk.injEq] at h
        obtain ⟨rfl, rfl⟩ := h
        have h1 := visitStmt_mono hs
        have h2 := visitStmts_mono hr
        cases i with
        | zero =>
          simp only [List.getElem?_cons_zero, Option.some.injEq] at hi
          subst hi
          exact ⟨n, slot, node, m, le_refl _, h2, hs, by simp⟩
        | succ j =>
          simp only [List.getElem?_cons_succ] at hi
          obtain ⟨k, slot1, node1, k1, hk, hk1, hv, hl⟩ :=
            visitStmts_getElem? rest m rest1 m2 j s hr hi
          exact ⟨k, slot1, node1, k1, by omega, hk1, hv, by simpa using hl⟩

/-- A walked statement that has children has its children walked, in the slot
that held it. -/
theorem visitStmt_children {gen : Nat → String} {s slot node : Stmt} {n n1 : Nat}
    (h : visitStmt gen s n = some (slot, node, n1)) (hc : children s ≠ []) :
    visitStmts gen (children s) n = some (children slot, n1) := by
  cases s with
  | block l =>
    unfold visitStmt at h
    cases hb : visitStmts gen l n with
    | none => simp [hb] at h
    | some r =>
      obtain ⟨l1, m⟩ := r
      simp only [hb, Option.some.injEq, Prod.mk.injEq] at h
      obtain ⟨rfl, rfl, rfl⟩ := h
      simpa [children] using hb
  | caseClause list l =>
    unfold visitStmt at h
    cases hb : visitStmts gen l n with
    | none => simp [hb] at h
    | some r =>
      obtain ⟨l1, m⟩ := r
      simp only [hb, Option.some.injEq, Prod.mk.injEq] at h
      obtain ⟨rfl, rfl, rfl⟩ := h
      simpa [children] using hb
  | ifStmt init cond body els =>
    cases body with
    | none => simp [children] at hc
    | some l =>
      unfold visitStmt visitBlock at h
      cases hb : visitStmts gen l n with
      | none => simp [hb] at h
      | some r =>
        obtain ⟨l1, m⟩ := r
        simp only [hb, Option.some.injEq, Prod.mk.injEq] at h
        obtain ⟨rfl, rfl, rfl⟩ := h
        simpa [children] using hb
  | switchStmt init tag body =>
    cases body with
    | none => simp [children] at hc
    | some l =>
      unfold visitStmt visitBlock at h
      cases hb : visitStmts gen l n with
      | none => simp [hb] at h
      | some r =>
        obtain ⟨l1, m⟩ := r
        simp only [hb, Option.some.injEq, Prod.mk.injEq] at h
        obtain ⟨rfl, rfl, rfl⟩ := h
        simpa [children] using hb
  | typeSwitchStmt init a body =>
    cases body with
    | none => simp [children] at hc
    | some l =>
      unfold visitStmt visitBlock at h
      cases hb : visitStmts gen l n with
      | none => simp [hb] at h
      | some r =>
        obtain ⟨l1, m⟩ := r
        simp only [hb, Option.some.injEq, Prod.mk.injEq] at h
        obtain ⟨rfl, rfl, rfl⟩ := h
        simpa [children] using hb
  | _ => simp [children] at hc

theorem reachEligible_skip (s : Stmt) (h : walked s = false) : reachEligible s = false := by
  cases s <;> simp [walked] at h <;> simp [reachEligible]

/-- After a successful walk no eligible loop stands at a reached position. -/
theorem reach_all (gen : Nat → String) :
    (∀ s n slot node n1, visitStmt gen s n = some (slot, node, n1) →
      reachEligible slot = false) ∧
    (∀ l n l1 n1, visitStmts gen l n = some (l1, n1) → reachEligibleList l1 = false) := by
  let M : WalkCases gen :=
    { onExpr := fun _ _ _ _ => True
      onFuncBody := fun _ _ _ _ => True
      onRhs := fun _ _ _ _ => True
      onStmt := fun _ _ slot _ _ => reachEligible slot = false
      onStmts := fun _ _ l1 _ => reachEligibleList l1 = false
      onBlock := fun _ _ b1 _ => ∀ l, b1 = some l → reachEligibleList l = false
      expr_funcLit := by intros; trivial
      expr_skip := by intros; trivial
      funcBody_nil := by intros; trivial
      funcBody_cons := by intros; trivial
      rhs_nil := by intros; trivial
      rhs_cons := by intros; trivial
      stmt_assign := by
        intros
        simp [reachEligible]
      stmt_for_match := by
        intro init cond post body n blk loop n1 h
        obtain ⟨x, tok, e, op, b, ptok, rfl, rfl, rfl, hop, rfl, rfl, rfl⟩ :=
          visitFor_block_inv h
        simp [reachEligible, reachEligibleList, hoistedDecl, hoistedLoop, eligible,
          postTarget]
      stmt_for_skip := by
        intro init cond post body n loop n1 h
        obtain ⟨rfl, -, he⟩ := visitFor_skip_inv h
        simpa [reachEligible] using he
      stmt_block := by
        intro l n l1 n1 _ ih
        simpa [reachEligible] using ih
      stmt_if := by
        intro init cond body els n body1 n1 _ ih
        cases body1 with
        | none => simp [reachEligible]
        | some l => simpa [reachEligible] using ih l rfl
      stmt_switch := by
        intro init tag body n body1 n1 _ ih
        cases body1 with
        | none => simp [reachEligible]
        | some l => simpa [reachEligible] using ih l rfl
      stmt_typeSwitch := by
        intro init a body n body1 n1 _ ih
        cases body1 with
        | none => simp [reachEligible]
        | some l => simpa [reachEligible] using ih l rfl
      stmt_case := by
        intro list body n body1 n1 _ ih
        simpa [reachEligible] using ih
      stmt_skip := by
        intro s n h
        exact reachEligible_skip s h
      stmts_nil := by
        intro n
        simp [reachEligibleList]
      stmts_cons := by
        intro s rest n slot node m rest1 n1 _ ih1 _ ih2
        simp [reachEligibleList, ih1, ih2]
      block_nil := by
        intro n l h
        simp at h
      block_some := by
        intro l n l1 n1 _ ih l2 h
        simp only [Option.some.injEq] at h
        subst h
        exact ih }
  exact ⟨walk_stmt M, walk_stmts M⟩

/-- C10, as a counterexample: on the body
`for i := 0; i < n; i++ { for j := 0; j < m; j++ {} }` the pass returns a
result in which the outer loop is hoisted and the inner loop, which is eligible,
stands unchanged in its body. -/
theorem nested_loop_left_eligible :
    visitFunction sampleGen (some [loopNested]) 0 =
      some (some [.block
        [hoistedDecl sampleGen (.basicLit Token.INT "0") (.ident "n") Token.INC 0,
         hoistedLoop sampleGen "i" Token.DEFINE Token.LSS
           (some [.forStmt (some (.assign [.ident "j"] Token.DEFINE [.basicLit Token.INT "0"]))
             (some (.binary (.ident "j") Token.LSS (.ident "m")))
             (some (.incDec (.ident "j") Token.INC)) (some [])]) 0]], 3) ∧
    eligible (some (.assign [.ident "j"] Token.DEFINE [.basicLit Token.INT "0"]))
      (some (.binary (.ident "j") Token.LSS (.ident "m")))
      (some (.incDec (.ident "j") Token.INC)) = true := by
  constructor
  · rfl
  · decide

/-! ## What the walker does not enter -/

theorem visitStmt_skip (gen : Nat → String) (s : Stmt) (n : Nat) (h : walked s = false) :
    visitStmt gen s n = some (s, s, n) := by
  cases s <;> simp [walked] at h <;> simp [visitStmt]

theorem visitExpr_skip (gen : Nat → String) (e : Expr) (n : Nat)
    (h : ∀ l, e ≠ .funcLit (some l)) : visitExpr gen e n = some (e, n) := by
  cases e with
  | funcLit b =>
    cases b with
    | none => simp [visitExpr]
    | some l => exact absurd rfl (h l)
  | _ => simp [visitExpr]

/-- C11, as a counterexample: on `g(func() { for i := 0; i < f(); i++ {} })` and
on `x := g(func() { for i := 0; i < f(); i++ {} })` the walk of the enclosing
function body returns the body as it was and draws no name; the eligible loop
inside the function literal is not rewritten. -/
theorem loop_in_call_argument_not_rewritten :
    visitFunction sampleGen (some [callWithFuncLit]) 0 =
      some (some [.exprStmt (.call (.ident "g") [.funcLit (some [loopLt])])], 0) ∧
    visitFunction sampleGen (some [assignCallWithFuncLit]) 0 =
      some (some [.assign [.ident "x"] Token.DEFINE
        [.call (.ident "g") [.funcLit (some [loopLt])]]], 0) ∧
    eligible (some initI) (some (.binary (.ident "i") Token.LSS (.call (.ident "f") [])))
      (some postI) = true := by
  refine ⟨by rfl, by rfl, by decide⟩

/-- C13: on `for i, j := 0, 0; i < n; i++ {}`, whose init has two targets and two
values, `visitFor` does not return nil: the init recognizer reports success
with an absent identifier and the call aborts on `initVar.Name`. -/
theorem visitFor_aborts_on_two_targets (gen : Nat → String) (n : Nat) :
    visitFor gen
      (some (.assign [.ident "i", .ident "j"] Token.DEFINE
        [.basicLit Token.INT "0", .basicLit Token.INT "0"]))
      (some (.binary (.ident "i") Token.LSS (.ident "n")))
      (some (.incDec (.ident "i") Token.INC)) (some []) n = none := by
  rfl

/-- C14: on the statement `i, j := 0, 0`, an assignment with two targets and two
values, `parseForInit` reports `ok = true`, with an absent identifier and an
absent init expression. -/
theorem parseForInit_ok_on_two_targets :
    parseForInit (some (.assign [.ident "i", .ident "j"] Token.DEFINE
      [.basicLit Token.INT "0", .basicLit Token.INT "0"])) = (none, none, true) := by
  rfl

/-- C15: `parseForPost` reports success exactly on an increment or decrement
statement whose operand is an identifier, and then returns that identifier and
the token of the statement; it is a total function, on an absent statement it
reports failure. -/
theorem parseForPost_ok_iff (s : Option Stmt) :
    ((parseForPost s).2.2 = true ↔ ∃ x tok, s = some (.incDec (.ident x) tok)) ∧
    (∀ x tok, s = some (.incDec (.ident x) tok) → parseForPost s = (some x, tok, true)) ∧
    (parseForPost none).2.2 = false := by
  refine ⟨⟨?_, ?_⟩, ?_, rfl⟩
  · intro h
    unfold parseForPost at h
    split at h
    · rename_i e tok
      cases e <;> simp at h
      exact ⟨_, tok, rfl⟩
    · simp at h
  · rintro ⟨x, tok, rfl⟩
    rfl
  · rintro x tok rfl
    rfl

/-- C16: on a statement whose kind has no branch in the type switch of
`visitStmt` (every kind but assignment, for-loop, block, conditional, switch,
type switch and case clause) the slot and the node are returned as they were,
with everything nested in them, and the generator is where it was. -/
theorem visitStmt_leaves_other_kinds (gen : Nat → String) (s : Stmt) (n : Nat)
    (h : walked s = false) : visitStmt gen s n = some (s, s, n) :=
  visitStmt_skip gen s n h

theorem visitStmt_leaves_other_kinds_witness :
    visitStmt sampleGen (.labeled "L" loopLt) 0 =
      some (.labeled "L" loopLt, .labeled "L" loopLt, 0) :=
  visitStmt_leaves_other_kinds sampleGen (.labeled "L" loopLt) 0 (by rfl)

/-- C17: when the parser succeeds on a source whose only declaration is
`func f() { for i := 0; i != n; i++ {} }`, `PreprocFile` returns no result and
no error: the walk aborts on an absent identifier. -/
theorem PreprocFile_aborts_after_parse (mkGen : String → Nat → String)
    (parseFile : String → String → Except String (List Decl))
    (fprint : List Decl → String) (source filename : String)
    (h : parseFile filename source = .ok [.funcDecl "f" (some [loopNeq])]) :
    PreprocFile mkGen parseFile fprint source filename = none := by
  unfold PreprocFile
  rw [h]
  rfl

theorem PreprocFile_aborts_after_parse_witness :
    PreprocFile (fun _ => sampleGen) (fun _ _ => .ok [.funcDecl "f" (some [loopNeq])])
      (fun _ => "") "package p; func f() { for i := 0; i != n; i++ {} }" "p.go" = none :=
  PreprocFile_aborts_after_parse (fun _ => sampleGen)
    (fun _ _ => .ok [.funcDecl "f" (some [loopNeq])]) (fun _ => "")
    "package p; func f() { for i := 0; i != n; i++ {} }" "p.go" rfl

/-- C18: when `visitStmt` returns on a for-loop, the loop node keeps its body,
and the slot holds either that node or a block of a declaration and that node:
the body of a for-loop is never walked, so a loop nested in it keeps its
header. -/
theorem visitStmt_keeps_for_body (gen : Nat → String) (init : Option Stmt)
    (cond : Option Expr) (post : Option Stmt) (body : Option (List Stmt)) (n : Nat)
    (slot node : Stmt) (n1 : Nat)
    (h : visitStmt gen (.forStmt init cond post body) n = some (slot, node, n1)) :
    ∃ init1 cond1 post1, node = .forStmt init1 cond1 post1 body ∧
      (slot = node ∨ ∃ decl, slot = .block [decl, node]) := by
  unfold visitStmt at h
  cases hf : visitFor gen init cond post body n with
  | none => simp [hf] at h
  | some r =>
    obtain ⟨blk, loop, m⟩ := r
    cases blk with
    | none =>
      simp only [hf, Option.some.injEq, Prod.mk.injEq] at h
      obtain ⟨rfl, rfl, rfl⟩ := h
      obtain ⟨rfl, -, -⟩ := visitFor_skip_inv hf
      exact ⟨init, cond, post, rfl, Or.inl rfl⟩
    | some b0 =>
      simp only [hf, Option.some.injEq, Prod.mk.injEq] at h
      obtain ⟨rfl, rfl, rfl⟩ := h
      obtain ⟨x, tok, e, op, b, ptok, rfl, rfl, rfl, hop, rfl, rfl, rfl⟩ :=
        visitFor_block_inv hf
      exact ⟨_, _, _, rfl, Or.inr ⟨_, rfl⟩⟩

theorem visitStmt_keeps_for_body_witness :
    ∃ init1 cond1 post1,
      hoistedLoop sampleGen "i" Token.DEFINE Token.LSS (some [loopInner]) 0 =
        .forStmt init1 cond1 post1 (some [loopInner]) ∧
      (Stmt.block [hoistedDecl sampleGen (.basicLit Token.INT "0") (.ident "n") Token.INC 0,
          hoistedLoop sampleGen "i" Token.DEFINE Token.LSS (some [loopInner]) 0] =
        hoistedLoop sampleGen "i" Token.DEFINE Token.LSS (some [loopInner]) 0 ∨
       ∃ decl, Stmt.block [hoistedDecl sampleGen (.basicLit Token.INT "0") (.ident "n")
            Token.INC 0, hoistedLoop sampleGen "i" Token.DEFINE Token.LSS (some [loopInner]) 0] =
          .block [decl, hoistedLoop sampleGen "i" Token.DEFINE Token.LSS (some [loopInner]) 0]) :=
  visitStmt_keeps_for_body sampleGen (some initI)
    (some (.binary (.ident "i") Token.LSS (.ident "n"))) (some postI) (some [loopInner]) 0
    _ _ 3 (by rfl)

/-- C20: when `visitStmt` returns on a conditional, the slot and the node hold
the conditional with the same init statement, condition and else branch; only
the then-body is the result of `visitBlock`, and the generator state is the one
`visitBlock` leaves on the then-body, so that the same holds with any other
else branch in its place. -/
theorem visitStmt_if_changes_only_body (gen : Nat → String) (init : Option Stmt) (cond : Expr)
    (body : Option (List Stmt)) (els : Option Stmt) (n : Nat) (slot node : Stmt) (n1 : Nat)
    (h : visitStmt gen (.ifStmt init cond body els) n = some (slot, node, n1)) :
    ∃ body1, visitBlock gen body n = some (body1, n1) ∧
      slot = .ifStmt init cond body1 els ∧ node = .ifStmt init cond body1 els ∧
      ∀ els1, visitStmt gen (.ifStmt init cond body els1) n =
        some (.ifStmt init cond body1 els1, .ifStmt init cond body1 els1, n1) := by
  unfold visitStmt at h
  cases hb : visitBlock gen body n with
  | none => simp [hb] at h
  | some r =>
    obtain ⟨b1, m⟩ := r
    simp only [hb, Option.some.injEq, Prod.mk.injEq] at h
    obtain ⟨rfl, rfl, rfl⟩ := h
    refine ⟨b1, rfl, rfl, rfl, ?_⟩
    intro els1
    simp [visitStmt, hb]

theorem visitStmt_if_changes_only_body_witness :
    ∃ body1, visitBlock sampleGen (some []) 0 = some (body1, 0) ∧
      Stmt.ifStmt none (.ident "c") (some []) (some (.block [loopLt])) =
        .ifStmt none (.ident "c") body1 (some (.block [loopLt])) ∧
      Stmt.ifStmt none (.ident "c") (some []) (some (.block [loopLt])) =
        .ifStmt none (.ident "c") body1 (some (.block [loopLt])) ∧
      ∀ els1, visitStmt sampleGen (.ifStmt none (.ident "c") (some []) els1) 0 =
        some (.ifStmt none (.ident "c") body1 els1, .ifStmt none (.ident "c") body1 els1, 0) :=
  visitStmt_if_changes_only_body sampleGen none (.ident "c") (some [])
    (some (.block [loopLt])) 0 _ _ 0 (by rfl)

/-! ## A second walk -/

theorem visitFor_rewritten (g : Nat → String) (x : String) (tok : Token) (a : Expr)
    (op : Token) (b c : Expr) (body : Option (List Stmt)) (m : Nat) :
    visitFor g (some (.assign [.ident x] tok [a])) (some (.binary (.ident x) op b))
        (some (.assign [.ident x] Token.ADD_ASSIGN [c])) body m =
      some (none, .forStmt (some (.assign [.ident x] tok [a]))
        (some (.binary (.ident x) op b))
        (some (.assign [.ident x] Token.ADD_ASSIGN [c])) body, m) := by
  simp [visitFor, parseForInit, parseForCond, parseForPost]

theorem visitFor_skip_any {gen : Nat → String} {init : Option Stmt} {cond : Option Expr}
    {post : Option Stmt} {body : Option (List Stmt)} {n : Nat} {loop : Stmt} {n1 : Nat}
    (h : visitFor gen init cond post body n = some (none, loop, n1)) (g : Nat → String)
    (m : Nat) : visitFor g init cond post body m = some (none, .forStmt init cond post body, m) := by
  unfold visitFor at h ⊢
  rcases hi : parseForInit init with ⟨initVar, initExpr, initOk⟩
  rcases hc : parseForCond cond with ⟨condVar, cop, condExpr, condOk⟩
  rcases hp : parseForPost post with ⟨postVar, postOp, postOk⟩
  rw [hi, hc, hp] at h
  simp only at h ⊢
  split at h
  · rename_i hok
    simp [hok]
  · rename_i hok
    simp only [hok]
    split at h
    · simp at h
    · simp at h
    · rename_i iv cv
      split at h
      · rename_i hne
        simp [hne]
      · rename_i heq
        simp only [heq]
        split at h
        · simp at h
        · rename_i pv
          split at h
          · rename_i hne2
            simp [hne2]
          · rename_i heq2
            split at h <;> simp at h

theorem visitStmt_hoisted_block (gen g : Nat → String) (x : String) (tok op ptok : Token)
    (e b : Expr) (body : Option (List Stmt)) (n m : Nat)
    (he : ∀ l, e ≠ .funcLit (some l)) (hb : ∀ l, b ≠ .funcLit (some l)) :
    visitStmt g (.block [hoistedDecl gen e b ptok n, hoistedLoop gen x tok op body n]) m =
      some (.block [hoistedDecl gen e b ptok n, hoistedLoop gen x tok op body n],
        .block [hoistedDecl gen e b ptok n, hoistedLoop gen x tok op body n], m) := by
  simp [visitStmt, visitStmts, visitRhs, hoistedDecl, hoistedLoop, visitExpr_skip g e m he,
    visitExpr_skip g b m hb, visitExpr, visitFor_rewritten]

theorem not_funcLit_of_plain {e : Expr} (h : isFuncLit e = false) : ∀ l, e ≠ .funcLit (some l) := by
  intro l hl
  rw [hl] at h
  simp [isFuncLit] at h

/-- A second walk changes nothing and draws nothing on the result of a walk in
which no declaration was built with a function literal on its right-hand
side. -/
theorem stable_all (gen : Nat → String) :
    (∀ s n slot node n1, visitStmt gen s n = some (slot, node, n1) →
      (∀ d ∈ declsStmt gen s n, ∀ e ∈ rhsOf d, isFuncLit e = false) →
      (∀ g m, visitStmt g slot m = some (slot, slot, m)) ∧
        (∀ g m, visitStmt g node m = some (node, node, m))) ∧
    (∀ b n b1 n1, visitBlock gen b n = some (b1, n1) →
      (∀ d ∈ declsBlock gen b n, ∀ e ∈ rhsOf d, isFuncLit e = false) →
      ∀ g m, visitBlock g b1 m = some (b1, m)) := by
  let M : WalkCases gen :=
    { onExpr := fun e n e1 _ =>
        (∀ d ∈ declsExpr gen e n, ∀ e ∈ rhsOf d, isFuncLit e = false) →
        ∀ g m, visitExpr g e1 m = some (e1, m)
      onFuncBody := fun l n l1 _ =>
        (∀ d ∈ declsFuncBody gen l n, ∀ e ∈ rhsOf d, isFuncLit e = false) →
        ∀ g m, visitFuncBody g l1 m = some (l1, m)
      onRhs := fun es n es1 _ =>
        (∀ d ∈ declsRhs gen es n, ∀ e ∈ rhsOf d, isFuncLit e = false) →
        ∀ g m, visitRhs g es1 m = some (es1, m)
      onStmt := fun s n slot node _ =>
        (∀ d ∈ declsStmt gen s n, ∀ e ∈ rhsOf d, isFuncLit e = false) →
        (∀ g m, visitStmt g slot m = some (slot, slot, m)) ∧
          (∀ g m, visitStmt g node m = some (node, node, m))
      onStmts := fun l n l1 _ =>
        (∀ d ∈ declsStmts gen l n, ∀ e ∈ rhsOf d, isFuncLit e = false) →
        ∀ g m, visitStmts g l1 m = some (l1, m)
      onBlock := fun b n b1 _ =>
        (∀ d ∈ declsBlock gen b n, ∀ e ∈ rhsOf d, isFuncLit e = false) →
        ∀ g m, visitBlock g b1 m = some (b1, m)
      expr_funcLit := by
        intro l n l1 n1 _ ih hd g m
        have := ih (by simpa [declsExpr] using hd) g m
        simp [visitExpr, this]
      expr_skip := by
        intro e n h _ g m
        exact visitExpr_skip g e m h
      funcBody_nil := by
        intro n _ g m
        simp [visitFuncBody]
      funcBody_cons := by
        intro s rest n slot node k rest1 n1 hs ih1 _ ih2 hd g m
        have hd1 : ∀ d ∈ declsStmt gen s n, ∀ e ∈ rhsOf d, isFuncLit e = false := by
          intro d hmem
          exact hd d (by simp [declsFuncBody, hs, hmem])
        have hd2 : ∀ d ∈ declsFuncBody gen rest k, ∀ e ∈ rhsOf d, isFuncLit e = false := by
          intro d hmem
          exact hd d (by simp [declsFuncBody, hs, hmem])
        simp [visitFuncBody, (ih1 hd1).2 g m, ih2 hd2 g m]
      rhs_nil := by
        intro n _ g m
        simp [visitRhs]
      rhs_cons := by
        intro e rest n e1 k rest1 n1 hs ih1 _ ih2 hd g m
        have hd1 : ∀ d ∈ declsExpr gen e n, ∀ e ∈ rhsOf d, isFuncLit e = false := by
          intro d hmem
          exact hd d (by simp [declsRhs, hs, hmem])
        have hd2 : ∀ d ∈ declsRhs gen rest k, ∀ e ∈ rhsOf d, isFuncLit e = false := by
          intro d hmem
          exact hd d (by simp [declsRhs, hs, hmem])
        simp [visitRhs, ih1 hd1 g m, ih2 hd2 g m]
      stmt_assign := by
        intro lhs tok rhs n rhs1 n1 _ ih hd
        have := ih (by simpa [declsStmt] using hd)
        constructor <;> intro g m <;> simp [visitStmt, this g m]
      stmt_for_match := by
        intro init cond post body n blk loop n1 h hd
        obtain ⟨x, tok, e, op, b, ptok, rfl, rfl, rfl, hop, rfl, rfl, rfl⟩ :=
          visitFor_block_inv h
        have hmem : hoistedDecl gen e b ptok n ∈
            declsStmt gen (.forStmt (some (.assign [.ident x] tok [e]))
              (some (.binary (.ident x) op b)) (some (.incDec (.ident x) ptok)) body) n := by
          simp [declsStmt, h]
        have he := hd _ hmem e (by simp [rhsOf, hoistedDecl])
        have hb := hd _ hmem b (by simp [rhsOf, hoistedDecl])
        constructor
        · intro g m
          exact visitStmt_hoisted_block gen g x tok op ptok e b body n m
            (not_funcLit_of_plain he) (not_funcLit_of_plain hb)
        · intro g m
          simp [visitStmt, hoistedLoop, visitFor_rewritten]
      stmt_for_skip := by
        intro init cond post body n loop n1 h _
        obtain ⟨rfl, -, -⟩ := visitFor_skip_inv h
        constructor <;> intro g m <;> simp [visitStmt, visitFor_skip_any h g m]
      stmt_block := by
        intro l n l1 n1 _ ih hd
        have := ih (by simpa [declsStmt] using hd)
        constructor <;> intro g m <;> simp [visitStmt, this g m]
      stmt_if := by
        intro init cond body els n body1 n1 _ ih hd
        have := ih (by simpa [declsStmt] using hd)
        constructor <;> intro g m <;> simp [visitStmt, this g m]
      stmt_switch := by
        intro init tag body n body1 n1 _ ih hd
        have := ih (by simpa [declsStmt] using hd)
        constructor <;> intro g m <;> simp [visitStmt, this g m]
      stmt_typeSwitch := by
        intro init a body n body1 n1 _ ih hd
        have := ih (by simpa [declsStmt] using hd)
        constructor <;> intro g m <;> simp [visitStmt, this g m]
      stmt_case := by
        intro list body n body1 n1 _ ih hd
        have := ih (by simpa [declsStmt] using hd)
        constructor <;> intro g m <;> simp [visitStmt, this g m]
      stmt_skip := by
        intro s n h _
        constructor <;> intro g m <;> exact visitStmt_skip g s m h
      stmts_nil := by
        intro n _ g m
        simp [visitStmts]
      stmts_cons := by
        intro s rest n slot node k rest1 n1 hs ih1 _ ih2 hd g m
        have hd1 : ∀ d ∈ declsStmt gen s n, ∀ e ∈ rhsOf d, isFuncLit e = false := by
          intro d hmem
          exact hd d (by simp [declsStmts, hs, hmem])
        have hd2 : ∀ d ∈ declsStmts gen rest k, ∀ e ∈ rhsOf d, isFuncLit e = false := by
          intro d hmem
          exact hd d (by simp [declsStmts, hs, hmem])
        simp [visitStmts, (ih1 hd1).1 g m, ih2 hd2 g m]
      block_nil := by
        intro n _ g m
        simp [visitBlock]
      block_some := by
        intro l n l1 n1 _ ih hd g m
        have := ih (by simpa [declsBlock] using hd) g m
        simp [visitBlock, this] }
  exact ⟨walk_stmt M, walk_block M⟩

/-- C12, as a counterexample: on the body
`for h := func() { { for j := 0; j < m; j++ {} } }; h < n; h++ {}` the first
walk hoists the function literal into the declaration without entering it; the
second walk enters it there, rewrites the loop inside and draws three more
names, so the tree of the first walk is not left unchanged. -/
theorem second_walk_rewrites_hoisted_funcLit :
    visitFunction sampleGen (some [loopFuncInit]) 0 =
      some (some [.block
        [hoistedDecl sampleGen (.funcLit (some [.block [loopInner]])) (.ident "n") Token.INC 0,
         hoistedLoop sampleGen "h" Token.DEFINE Token.LSS (some []) 0]], 3) ∧
    visitFunction sampleGen (some [.block
        [hoistedDecl sampleGen (.funcLit (some [.block [loopInner]])) (.ident "n") Token.INC 0,
         hoistedLoop sampleGen "h" Token.DEFINE Token.LSS (some []) 0]]) 3 =
      some (some [.block
        [hoistedDecl sampleGen
          (.funcLit (some [.block [.block
            [hoistedDecl sampleGen (.basicLit Token.INT "0") (.ident "m") Token.INC 3,
             hoistedLoop sampleGen "j" Token.DEFINE Token.LSS (some []) 3]]]))
          (.ident "n") Token.INC 0,
         hoistedLoop sampleGen "h" Token.DEFINE Token.LSS (some []) 0]], 6) ∧
    visitFunction sampleGen (some [.block
        [hoistedDecl sampleGen (.funcLit (some [.block [loopInner]])) (.ident "n") Token.INC 0,
         hoistedLoop sampleGen "h" Token.DEFINE Token.LSS (some []) 0]]) 3 ≠
      some (some [.block
        [hoistedDecl sampleGen (.funcLit (some [.block [loopInner]])) (.ident "n") Token.INC 0,
         hoistedLoop sampleGen "h" Token.DEFINE Token.LSS (some []) 0]], 3) := by
  have h2 : visitFunction sampleGen (some [.block
        [hoistedDecl sampleGen (.funcLit (some [.block [loopInner]])) (.ident "n") Token.INC 0,
         hoistedLoop sampleGen "h" Token.DEFINE Token.LSS (some []) 0]]) 3 =
      some (some [.block
        [hoistedDecl sampleGen
          (.funcLit (some [.block [.block
            [hoistedDecl sampleGen (.basicLit Token.INT "0") (.ident "m") Token.INC 3,
             hoistedLoop sampleGen "j" Token.DEFINE Token.LSS (some []) 3]]]))
          (.ident "n") Token.INC 0,
         hoistedLoop sampleGen "h" Token.DEFINE Token.LSS (some []) 0]], 6) := by
    rfl
  refine ⟨by rfl, h2, ?_⟩
  rw [h2]
  intro h
  simp at h

/-- C12, amended: on every function body on which the walk completes and during
whose walk no declaration is built with a function literal on its right-hand
side (no rewritten loop has a function literal as init or bound expression), a
second walk of the resulting tree, with any generator in any state, returns
that tree unchanged and draws no name. -/
theorem second_walk_unchanged (gen : Nat → String) (fbody out : Option (List Stmt))
    (n n1 : Nat) (h : visitFunction gen fbody n = some (out, n1))
    (hplain : ∀ d ∈ declsBlock gen fbody n, ∀ e ∈ rhsOf d, isFuncLit e = false) :
    ∀ (g : Nat → String) (m : Nat), visitFunction g out m = some (out, m) := by
  intro g m
  cases fbody with
  | none =>
    simp only [visitFunction, Option.some.injEq, Prod.mk.injEq] at h
    obtain ⟨rfl, -⟩ := h
    rfl
  | some l =>
    have hb : visitBlock gen (some l) n = some (out, n1) := h
    have hs := (stable_all gen).2 (some l) n out n1 hb hplain g m
    cases out with
    | none => rfl
    | some l1 => exact hs

theorem second_walk_unchanged_witness :
    visitFunction sampleGen (some [.block
        [hoistedDecl sampleGen (.basicLit Token.INT "0") (.call (.ident "f") []) Token.INC 0,
         hoistedLoop sampleGen "i" Token.DEFINE Token.LSS (some []) 0]]) 3 =
      some (some [.block
        [hoistedDecl sampleGen (.basicLit Token.INT "0") (.call (.ident "f") []) Token.INC 0,
         hoistedLoop sampleGen "i" Token.DEFINE Token.LSS (some []) 0]], 3) :=
  second_walk_unchanged sampleGen (some [loopLt])
    (some [.block
      [hoistedDecl sampleGen (.basicLit Token.INT "0") (.call (.ident "f") []) Token.INC 0,
       hoistedLoop sampleGen "i" Token.DEFINE Token.LSS (some []) 0]]) 0 3 (by rfl)
    (by
      intro d hd e he
      have hd1 : d = hoistedDecl sampleGen (.basicLit Token.INT "0") (.call (.ident "f") [])
          Token.INC 0 := by
        simpa [declsBlock, declsStmts, declsStmt, loopLt, initI, postI, visitFor,
          parseForInit, parseForCond, parseForPost, hoistedDecl, setInitExpr, setCondExpr,
          visitStmt] using hd
      subst hd1
      simp only [rhsOf, hoistedDecl, List.mem_cons, List.mem_singleton, List.not_mem_nil,
        or_false] at he
      rcases he with rfl | rfl | rfl <;> rfl) sampleGen 3

/-- C19: when `visitFor` returns a block, the block is a declaration followed by
the loop node; the post statement of that loop is rejected by the post
recognizer, `visitFor` on that loop returns nil, leaves it as it is and draws no
name, with any generator in any state; and `visitStmt` on the block returns the
block unchanged and draws no name whenever the init and bound expressions of
the declaration are not function literals. -/
theorem rewritten_loop_not_rewritten_again (gen : Nat → String) (init : Option Stmt)
    (cond : Option Expr) (post : Option Stmt) (body : Option (List Stmt)) (n : Nat)
    (blk loop : Stmt) (n1 : Nat)
    (h : visitFor gen init cond post body n = some (some blk, loop, n1)) :
    ∃ lhs initE bound lit init1 cond1 post1,
      blk = .block [.assign lhs Token.DEFINE [initE, bound, lit], loop] ∧
      loop = .forStmt init1 cond1 post1 body ∧
      (parseForPost post1).2.2 = false ∧
      (∀ g m, visitFor g init1 cond1 post1 body m = some (none, loop, m)) ∧
      ((∀ fb, initE ≠ .funcLit fb) → (∀ fb, bound ≠ .funcLit fb) →
        ∀ g m, visitStmt g blk m = some (blk, blk, m)) := by
  obtain ⟨x, tok, e, op, b, ptok, rfl, rfl, rfl, hop, rfl, rfl, rfl⟩ := visitFor_block_inv h
  refine ⟨_, e, b, _, _, _, _, rfl, rfl, rfl, ?_, ?_⟩
  · intro g m
    exact visitFor_rewritten g x tok _ op _ _ body m
  · intro he hb g m
    exact visitStmt_hoisted_block gen g x tok op ptok e b body n m (fun l => he (some l))
      (fun l => hb (some l))

theorem rewritten_loop_not_rewritten_again_witness :
    ∃ lhs initE bound lit init1 cond1 post1,
      Stmt.block [hoistedDecl sampleGen (.basicLit Token.INT "0") (.call (.ident "f") [])
          Token.INC 0, hoistedLoop sampleGen "i" Token.DEFINE Token.LSS (some []) 0] =
        .block [.assign lhs Token.DEFINE [initE, bound, lit],
          hoistedLoop sampleGen "i" Token.DEFINE Token.LSS (some []) 0] ∧
      hoistedLoop sampleGen "i" Token.DEFINE Token.LSS (some []) 0 =
        .forStmt init1 cond1 post1 (some []) ∧
      (parseForPost post1).2.2 = false ∧
      (∀ g m, visitFor g init1 cond1 post1 (some []) m =
        some (none, hoistedLoop sampleGen "i" Token.DEFINE Token.LSS (some []) 0, m)) ∧
      ((∀ fb, initE ≠ .funcLit fb) → (∀ fb, bound ≠ .funcLit fb) →
        ∀ g m, visitStmt g (.block [hoistedDecl sampleGen (.basicLit Token.INT "0")
            (.call (.ident "f") []) Token.INC 0,
            hoistedLoop sampleGen "i" Token.DEFINE Token.LSS (some []) 0]) m =
          some (.block [hoistedDecl sampleGen (.basicLit Token.INT "0")
            (.call (.ident "f") []) Token.INC 0,
            hoistedLoop sampleGen "i" Token.DEFINE Token.LSS (some []) 0],
            .block [hoistedDecl sampleGen (.basicLit Token.INT "0")
            (.call (.ident "f") []) Token.INC 0,
            hoistedLoop sampleGen "i" Token.DEFINE Token.LSS (some []) 0], m)) :=
  rewritten_loop_not_rewritten_again sampleGen (some initI)
    (some (.binary (.ident "i") Token.LSS (.call (.ident "f") []))) (some postI) (some []) 0
    _ _ 3 (by rfl)

/-! ## The pass driver -/

theorem PreprocFile_parse_error (mkGen : String → Nat → String)
    (parseFile : String → String → Except String (List Decl))
    (fprint : List Decl → String) (source filename err : String)
    (h : parseFile filename source = .error err) :
    PreprocFile mkGen parseFile fprint source filename = some ("", some err) := by
  unfold PreprocFile
  rw [h]

/-! ## Positions visited by the walk -/

theorem visitExpr_mono {gen : Nat → String} {e e1 : Expr} {n n1 : Nat}
    (h : visitExpr gen e n = some (e1, n1)) : n ≤ n1 := by
  have := ((draws_all gen).1 e n e1 n1 h).1
  omega

theorem visitFuncBody_mono {gen : Nat → String} {l l1 : List Stmt} {n n1 : Nat}
    (h : visitFuncBody gen l n = some (l1, n1)) : n ≤ n1 := by
  have he : visitExpr gen (.funcLit (some l)) n = some (.funcLit (some l1), n1) := by
    simp [visitExpr, h]
  exact visitExpr_mono he

theorem stmtVia_nil (i : Nat) (p : List (Step × Nat)) : stmtVia [] i p = none := by
  cases p <;> simp [stmtVia]

/-- The element at index `i` of a walked function-literal body is the node that
`visitStmt` leaves for the statement it held. -/
theorem visitFuncBody_getElem? {gen : Nat → String} :
    ∀ (l : List Stmt) (n : Nat) (l1 : List Stmt) (n1 : Nat) (i : Nat) (s : Stmt),
      visitFuncBody gen l n = some (l1, n1) → l[i]? = some s →
      ∃ m slot node m1, n ≤ m ∧ m1 ≤ n1 ∧ visitStmt gen s m = some (slot, node, m1) ∧
        l1[i]? = some node
  | [], n, l1, n1, i, s, _, hi => by simp at hi
  | t :: rest, n, l1, n1, i, s, h, hi => by
    unfold visitFuncBody at h
    cases hs : visitStmt gen t n with
    | none => simp [hs] at h
    | some r =>
      obtain ⟨slot, node, m⟩ := r
      simp only [hs] at h
      cases hr : visitFuncBody gen rest m with
      | none => simp [hr] at h
      | some r2 =>
        obtain ⟨rest1, m2⟩ := r2
        simp only [hr, Option.some.injEq, Prod.mk.injEq] at h
        obtain ⟨rfl, rfl⟩ := h
        have h1 := visitStmt_mono hs
        have h2 := visitFuncBody_mono hr
        cases i with
        | zero =>
          simp only [List.getElem?_cons_zero, Option.some.injEq] at hi
          subst hi
          exact ⟨n, slot, node, m, le_refl _, h2, hs, by simp⟩
        | succ j =>
          simp only [List.getElem?_cons_succ] at hi
          obtain ⟨k, slot1, node1, k1, hk, hk1, hv, hl⟩ :=
            visitFuncBody_getElem? rest m rest1 m2 j s hr hi
          exact ⟨k, slot1, node1, k1, by omega, hk1, hv, by simpa using hl⟩

/-- The right-hand side at index `j` of a walked assignment is the result of
`visitExpr` on the expression it held. -/
theorem visitRhs_getElem? {gen : Nat → String} :
    ∀ (es : List Expr) (n : Nat) (es1 : List Expr) (n1 : Nat) (j : Nat) (e : Expr),
      visitRhs gen es n = some (es1, n1) → es[j]? = some e →
      ∃ m e1 m1, n ≤ m ∧ m1 ≤ n1 ∧ visitExpr gen e m = some (e1, m1) ∧ es1[j]? = some e1
  | [], n, es1, n1, j, e, _, hj => by simp at hj
  | t :: rest, n, es1, n1, j, e, h, hj => by
    unfold visitRhs at h
    cases hs : visitExpr gen t n with
    | none => simp [hs] at h
    | some r =>
      obtain ⟨t1, m⟩ := r
      simp only [hs] at h
      cases hr : visitRhs gen rest m with
      | none => simp [hr] at h
      | some r2 =>
        obtain ⟨rest1, m2⟩ := r2
        simp only [hr, Option.some.injEq, Prod.mk.injEq] at h
        obtain ⟨rfl, rfl⟩ := h
        have h1 := visitExpr_mono hs
        have h2 : m ≤ m2 := by
          have hst : visitStmt gen (.assign [] Token.ASSIGN rest) m =
              some (.assign [] Token.ASSIGN rest1, .assign [] Token.ASSIGN rest1, m2) := by
            simp [visitStmt, hr]
          exact visitStmt_mono hst
        cases j with
        | zero =>
          simp only [List.getElem?_cons_zero, Option.some.injEq] at hj
          subst hj
          exact ⟨n, t1, m, le_refl _, h2, hs, by simp⟩
        | succ k =>
          simp only [List.getElem?_cons_succ] at hj
          obtain ⟨k0, e1, k1, hk, hk1, hv, hl⟩ :=
            visitRhs_getElem? rest m rest1 m2 k e hr hj
          exact ⟨k0, e1, k1, by omega, hk1, hv, by simpa using hl⟩

theorem walkSeq_getElem? {gen : Nat → String} {mode : Bool} {l l1 : List Stmt} {n n1 i : Nat}
    {s : Stmt} (h : walkSeq gen mode l n = some (l1, n1)) (hi : l[i]? = some s) :
    ∃ m slot node m1, n ≤ m ∧ m1 ≤ n1 ∧ visitStmt gen s m = some (slot, node, m1) ∧
      l1[i]? = some (if mode then slot else node) := by
  cases mode with
  | true =>
    simp only [walkSeq, ↓reduceIte] at h
    simpa using visitStmts_getElem? l n l1 n1 i s h hi
  | false =>
    simp only [walkSeq, Bool.false_eq_true, ↓reduceIte] at h
    simpa using visitFuncBody_getElem? l n l1 n1 i s h hi

theorem below_for (init : Option Stmt) (cond : Option Expr) (post : Option Stmt)
    (body : Option (List Stmt)) (st : Step) : below (.forStmt init cond post body) st = [] := by
  cases st <;> simp [below, children]

theorem visitStmt_slot_eq_node {gen : Nat → String} {s slot node : Stmt} {n n1 : Nat}
    (h : visitStmt gen s n = some (slot, node, n1))
    (hs : ∀ i c p b, s ≠ .forStmt i c p b) : slot = node := by
  cases s with
  | forStmt i c p b => exact absurd rfl (hs i c p b)
  | assign lhs tok rhs =>
    unfold visitStmt at h
    cases hb : visitRhs gen rhs n with
    | none => simp [hb] at h
    | some r =>
      simp only [hb, Option.some.injEq, Prod.mk.injEq] at h
      obtain ⟨rfl, rfl, -⟩ := h
      rfl
  | block l =>
    unfold visitStmt at h
    cases hb : visitStmts gen l n with
    | none => simp [hb] at h
    | some r =>
      simp only [hb, Option.some.injEq, Prod.mk.injEq] at h
      obtain ⟨rfl, rfl, -⟩ := h
      rfl
  | caseClause list l =>
    unfold visitStmt at h
    cases hb : visitStmts gen l n with
    | none => simp [hb] at h
    | some r =>
      simp only [hb, Option.some.injEq, Prod.mk.injEq] at h
      obtain ⟨rfl, rfl, -⟩ := h
      rfl
  | ifStmt init cond body els =>
    unfold visitStmt at h
    cases hb : visitBlock gen body n with
    | none => simp [hb] at h
    | some r =>
      simp only [hb, Option.some.injEq, Prod.mk.injEq] at h
      obtain ⟨rfl, rfl, -⟩ := h
      rfl
  | switchStmt init tag body =>
    unfold visitStmt at h
    cases hb : visitBlock gen body n with
    | none => simp [hb] at h
    | some r =>
      simp only [hb, Option.some.injEq, Prod.mk.injEq] at h
      obtain ⟨rfl, rfl, -⟩ := h
      rfl
  | typeSwitchStmt init a body =>
    unfold visitStmt at h
    cases hb : visitBlock gen body n with
    | none => simp [hb] at h
    | some r =>
      simp only [hb, Option.some.injEq, Prod.mk.injEq] at h
      obtain ⟨rfl, rfl, -⟩ := h
      rfl
  | _ =>
    simp only [visitStmt, Option.some.injEq, Prod.mk.injEq] at h
    obtain ⟨rfl, rfl, -⟩ := h
    rfl

/-- A walked statement with a sequence one step below it has that sequence
walked, and the result stands one step below its slot. -/
theorem visitStmt_below {gen : Nat → String} {s slot node : Stmt} {n n1 : Nat} {st : Step}
    (h : visitStmt gen s n = some (slot, node, n1)) (hne : below s st ≠ []) :
    ∃ m m1 l1, n ≤ m ∧ m1 ≤ n1 ∧
      walkSeq gen (match st with | .child => true | .lit _ => false) (below s st) m =
        some (l1, m1) ∧
      below slot st = l1 ∧ slot = node := by
  have hnf : ∀ i c p b, s ≠ .forStmt i c p b := by
    intro i c p b hs
    rw [hs, below_for] at hne
    exact hne rfl
  have hsn := visitStmt_slot_eq_node h hnf
  cases st with
  | child =>
    have hc : children s ≠ [] := by simpa [below] using hne
    have := visitStmt_children h hc
    exact ⟨n, n1, children slot, le_refl _, le_refl _, by simpa [walkSeq, below] using this,
      by simp [below], hsn⟩
  | lit j =>
    cases s with
    | assign lhs tok rhs =>
      unfold visitStmt at h
      cases hb : visitRhs gen rhs n with
      | none => simp [hb] at h
      | some r =>
        obtain ⟨rhs1, m⟩ := r
        simp only [hb, Option.some.injEq, Prod.mk.injEq] at h
        obtain ⟨rfl, rfl, rfl⟩ := h
        cases hj : rhs[j]? with
        | none => simp [below, hj] at hne
        | some e =>
          cases e with
          | funcLit fb =>
            cases fb with
            | none => simp [below, hj] at hne
            | some l =>
              obtain ⟨k, e1, k1, hk, hk1, hv, hl⟩ := visitRhs_getElem? rhs n rhs1 m j _ hb hj
              unfold visitExpr at hv
              cases hf : visitFuncBody gen l k with
              | none => simp [hf] at hv
              | some r2 =>
                obtain ⟨l1, k2⟩ := r2
                simp only [hf, Option.some.injEq, Prod.mk.injEq] at hv
                obtain ⟨rfl, rfl⟩ := hv
                refine ⟨k, k2, l1, hk, hk1, ?_, ?_, rfl⟩
                · simp [walkSeq, below, hj, hf]
                · simp [below, hl]
          | _ => simp [below, hj] at hne
    | _ => simp [below] at hne

/-- What the walk leaves at the position of a for-loop of the original
sequence: the slot of `visitStmt` on the loop where the sequence holding it is
walked through its slots, the node otherwise. -/
theorem walkSeq_at_for {gen : Nat → String} :
    ∀ (p : List (Step × Nat)) (mode : Bool) (l : List Stmt) (n : Nat) (l1 : List Stmt)
      (n1 i : Nat) (init : Option Stmt) (cond : Option Expr) (post : Option Stmt)
      (body : Option (List Stmt)),
      walkSeq gen mode l n = some (l1, n1) →
      stmtVia l i p = some (.forStmt init cond post body) →
      ∃ k slot node k1, n ≤ k ∧ k1 ≤ n1 ∧
        visitStmt gen (.forStmt init cond post body) k = some (slot, node, k1) ∧
        stmtVia l1 i p = some (if inSlots mode p then slot else node)
  | [], mode, l, n, l1, n1, i, init, cond, post, body, h, hp => by
    simp only [stmtVia] at hp
    obtain ⟨m, slot, node, m1, hm, hm1, hv, hl⟩ := walkSeq_getElem? h hp
    exact ⟨m, slot, node, m1, hm, hm1, hv, by simpa [stmtVia, inSlots] using hl⟩
  | (st, k) :: q, mode, l, n, l1, n1, i, init, cond, post, body, h, hp => by
    unfold stmtVia at hp
    cases hi : l[i]? with
    | none => simp [hi] at hp
    | some s =>
      simp only [hi] at hp
      obtain ⟨m, slot, node, m1, hm, hm1, hv, hl⟩ := walkSeq_getElem? h hi
      have hne : below s st ≠ [] := by
        intro hnil
        rw [hnil, stmtVia_nil] at hp
        simp at hp
      obtain ⟨m2, m3, l2, hm2, hm3, hw, hbl, hsn⟩ := visitStmt_below hv hne
      obtain ⟨k0, slot2, node2, k1, hk, hk1, hv2, hl2⟩ :=
        walkSeq_at_for q _ (below s st) m2 l2 m3 k init cond post body hw hp
      refine ⟨k0, slot2, node2, k1, by omega, by omega, hv2, ?_⟩
      have hl' : l1[i]? = some slot := by
        cases mode <;> simp_all
      unfold stmtVia
      simp only [hl', hbl]
      cases st <;> simpa [inSlots] using hl2

theorem visitFunction_some {gen : Nat → String} {l l1 : List Stmt} {n n1 : Nat}
    (h : visitFunction gen (some l) n = some (some l1, n1)) :
    walkSeq gen true l n = some (l1, n1) := by
  unfold visitFunction visitBlock at h
  cases hb : visitStmts gen l n with
  | none => simp [hb] at h
  | some r =>
    obtain ⟨l2, m⟩ := r
    simp only [hb, Option.some.injEq, Prod.mk.injEq] at h
    obtain ⟨rfl, rfl⟩ := h
    simp [walkSeq, hb]

/-- What a completed walk of a sequence leaves at the position of a for-loop of
the original sequence, by eligibility of the loop. -/
theorem walkSeq_at_for_cases {gen : Nat → String} {l l1 : List Stmt} {n n1 i : Nat}
    {p : List (Step × Nat)} {init : Option Stmt} {cond : Option Expr} {post : Option Stmt}
    {body : Option (List Stmt)} (h : walkSeq gen true l n = some (l1, n1))
    (hp : stmtVia l i p = some (.forStmt init cond post body)) :
    (eligible init cond post = true → inSlots true p = true →
      ∃ k x tok e op b ptok, n ≤ k ∧ k + 3 ≤ n1 ∧
        init = some (.assign [.ident x] tok [e]) ∧
        cond = some (.binary (.ident x) op b) ∧
        post = some (.incDec (.ident x) ptok) ∧
        stmtVia l1 i p =
          some (.block [hoistedDecl gen e b ptok k, hoistedLoop gen x tok op body k])) ∧
    (eligible init cond post = false →
      stmtVia l1 i p = some (.forStmt init cond post body)) ∧
    (∀ init1 cond1 post1 body1, stmtVia l1 i p = some (.forStmt init1 cond1 post1 body1) →
      eligible init1 cond1 post1 = false) := by
  obtain ⟨k, slot, loop, k1, hk, hk1, hv, hl⟩ :=
    walkSeq_at_for p true l n l1 n1 i init cond post body h hp
  unfold visitStmt at hv
  cases hf : visitFor gen init cond post body k with
  | none => simp [hf] at hv
  | some r =>
    obtain ⟨blk, loop2, m⟩ := r
    cases blk with
    | none =>
      simp only [hf, Option.some.injEq, Prod.mk.injEq] at hv
      obtain ⟨rfl, rfl, rfl⟩ := hv
      obtain ⟨rfl, rfl, he⟩ := visitFor_skip_inv hf
      simp only [ite_self] at hl
      refine ⟨?_, fun _ => hl, ?_⟩
      · intro he2
        rw [he] at he2
        cases he2
      · intro init1 cond1 post1 body1 h1
        rw [hl] at h1
        simp only [Option.some.injEq, Stmt.forStmt.injEq] at h1
        obtain ⟨rfl, rfl, rfl, -⟩ := h1
        exact he
    | some b0 =>
      simp only [hf, Option.some.injEq, Prod.mk.injEq] at hv
      obtain ⟨rfl, rfl, rfl⟩ := hv
      obtain ⟨x, tok, e, op, b, ptok, rfl, rfl, rfl, hop, rfl, rfl, rfl⟩ :=
        visitFor_block_inv hf
      have hel : eligible (some (.assign [.ident x] tok [e]))
          (some (.binary (.ident x) op b)) (some (.incDec (.ident x) ptok)) = true :=
        (eligible_iff _ _ _).mpr ⟨x, tok, e, op, b, ptok, rfl, rfl, rfl, hop⟩
      refine ⟨?_, ?_, ?_⟩
      · intro _ hin
        rw [hin] at hl
        exact ⟨k, x, tok, e, op, b, ptok, hk, hk1, rfl, rfl, rfl, by simpa using hl⟩
      · intro he
        rw [he] at hel
        cases hel
      · intro init1 cond1 post1 body1 h1
        rw [hl] at h1
        cases hin : inSlots true p with
        | true => simp [hin] at h1
        | false =>
          simp only [hin, Bool.false_eq_true, ↓reduceIte, Option.some.injEq, hoistedLoop,
            Stmt.forStmt.injEq] at h1
          obtain ⟨rfl, rfl, rfl, -⟩ := h1
          simp [eligible, postTarget]

/-- C10, amended: on every function body on which the pass returns a result,
every for-loop of the original body at a position that the walker visits
(reached from the body through block lists, then-bodies, switch and type-switch
bodies, case-clause bodies and the bodies of function literals that are
right-hand sides of assignments) is unchanged if it is not eligible, and is
replaced by its hoisted block if it is eligible and the sequence holding it is
not the body of a function literal itself; at none of these positions does the
result hold an eligible loop, and no eligible loop stands at any position of the
result reached through block lists, then-bodies, switch and type-switch bodies
and case-clause bodies. -/
theorem walk_normalizes_reached_loops (gen : Nat → String) (l l1 : List Stmt) (n n1 : Nat)
    (h : visitFunction gen (some l) n = some (some l1, n1)) :
    reachEligibleList l1 = false ∧
    ∀ i p init cond post body, stmtVia l i p = some (.forStmt init cond post body) →
      (eligible init cond post = true → inSlots true p = true →
        ∃ k x tok e op b ptok, n ≤ k ∧ k + 3 ≤ n1 ∧
          init = some (.assign [.ident x] tok [e]) ∧
          cond = some (.binary (.ident x) op b) ∧
          post = some (.incDec (.ident x) ptok) ∧
          stmtVia l1 i p =
            some (.block [hoistedDecl gen e b ptok k, hoistedLoop gen x tok op body k])) ∧
      (eligible init cond post = false →
        stmtVia l1 i p = some (.forStmt init cond post body)) ∧
      (∀ init1 cond1 post1 body1, stmtVia l1 i p = some (.forStmt init1 cond1 post1 body1) →
        eligible init1 cond1 post1 = false) := by
  have hw := visitFunction_some h
  have hs : visitStmts gen l n = some (l1, n1) := by simpa [walkSeq] using hw
  refine ⟨(reach_all gen).2 l n l1 n1 hs, ?_⟩
  intro i p init cond post body hp
  exact walkSeq_at_for_cases hw hp

theorem walk_normalizes_reached_loops_witness :
    reachEligibleList
        [.block [hoistedDecl sampleGen (.basicLit Token.INT "0") (.call (.ident "f") [])
          Token.INC 0, hoistedLoop sampleGen "i" Token.DEFINE Token.LSS (some []) 0]] = false ∧
    ∀ i p init cond post body, stmtVia [loopLt] i p = some (.forStmt init cond post body) →
      (eligible init cond post = true → inSlots true p = true →
        ∃ k x tok e op b ptok, 0 ≤ k ∧ k + 3 ≤ 3 ∧
          init = some (.assign [.ident x] tok [e]) ∧
          cond = some (.binary (.ident x) op b) ∧
          post = some (.incDec (.ident x) ptok) ∧
          stmtVia [.block [hoistedDecl sampleGen (.basicLit Token.INT "0")
              (.call (.ident "f") []) Token.INC 0,
              hoistedLoop sampleGen "i" Token.DEFINE Token.LSS (some []) 0]] i p =
            some (.block [hoistedDecl sampleGen e b ptok k,
              hoistedLoop sampleGen x tok op body k])) ∧
      (eligible init cond post = false →
        stmtVia [.block [hoistedDecl sampleGen (.basicLit Token.INT "0")
            (.call (.ident "f") []) Token.INC 0,
            hoistedLoop sampleGen "i" Token.DEFINE Token.LSS (some []) 0]] i p =
          some (.forStmt init cond post body)) ∧
      (∀ init1 cond1 post1 body1,
        stmtVia [.block [hoistedDecl sampleGen (.basicLit Token.INT "0")
            (.call (.ident "f") []) Token.INC 0,
            hoistedLoop sampleGen "i" Token.DEFINE Token.LSS (some []) 0]] i p =
          some (.forStmt init1 cond1 post1 body1) →
        eligible init1 cond1 post1 = false) :=
  walk_normalizes_reached_loops sampleGen [loopLt] _ 0 3 (by rfl)

/-- C11, amended: a function literal passed as an argument to a call is not
entered.  `visitStmt` returns every expression statement as it was and draws no
name; `visitExpr` returns every expression that is not a function literal, a
call among them, as it was and draws no name; `visitStmt` returns every
assignment none of whose right-hand sides is a function literal as it was and
draws no name.  A function literal that is itself a right-hand side of an
assignment is entered, at every index among the right-hand sides: on every
function body on which the walk returns, every eligible for-loop at a position
reached from the body through block lists, then-bodies, switch and type-switch
bodies, case-clause bodies and the bodies of such literals is replaced by its
hoisted block, unless the sequence holding it is the body of a literal
itself. -/
theorem walk_enters_only_assigned_funcLit (gen : Nat → String) (l l1 : List Stmt) (n n1 : Nat)
    (h : visitFunction gen (some l) n = some (some l1, n1)) :
    (∀ (g : Nat → String) (x : Expr) (k : Nat),
      visitStmt g (.exprStmt x) k = some (.exprStmt x, .exprStmt x, k)) ∧
    (∀ (g : Nat → String) (e : Expr) (k : Nat), isFuncLit e = false →
      visitExpr g e k = some (e, k)) ∧
    (∀ (g : Nat → String) (lhs : List Expr) (tok : Token) (rhs : List Expr) (k : Nat),
      (∀ e ∈ rhs, isFuncLit e = false) →
      visitStmt g (.assign lhs tok rhs) k = some (.assign lhs tok rhs, .assign lhs tok rhs, k)) ∧
    ∀ i p init cond post body, stmtVia l i p = some (.forStmt init cond post body) →
      eligible init cond post = true → inSlots true p = true →
        ∃ k x tok e op b ptok, n ≤ k ∧ k + 3 ≤ n1 ∧
          init = some (.assign [.ident x] tok [e]) ∧
          cond = some (.binary (.ident x) op b) ∧
          post = some (.incDec (.ident x) ptok) ∧
          stmtVia l1 i p =
            some (.block [hoistedDecl gen e b ptok k, hoistedLoop gen x tok op body k]) := by
  have hexpr : ∀ (g : Nat → String) (e : Expr) (k : Nat), isFuncLit e = false →
      visitExpr g e k = some (e, k) := by
    intro g e k he
    exact visitExpr_skip g e k (not_funcLit_of_plain he)
  have hrhs : ∀ (g : Nat → String) (rhs : List Expr) (k : Nat),
      (∀ e ∈ rhs, isFuncLit e = false) → visitRhs g rhs k = some (rhs, k) := by
    intro g rhs
    induction rhs with
    | nil => intro k _; simp [visitRhs]
    | cons e rest ih =>
      intro k hall
      have he := hexpr g e k (hall e (by simp))
      have hr := ih k (fun e1 h1 => hall e1 (by simp [h1]))
      simp [visitRhs, he, hr]
  refine ⟨?_, hexpr, ?_, ?_⟩
  · intro g x k
    simp [visitStmt]
  · intro g lhs tok rhs k hall
    simp [visitStmt, hrhs g rhs k hall]
  · intro i p init cond post body hp he hin
    exact (walkSeq_at_for_cases (visitFunction_some h) hp).1 he hin

theorem walk_enters_only_assigned_funcLit_witness :
    (∀ (g : Nat → String) (x : Expr) (k : Nat),
      visitStmt g (.exprStmt x) k = some (.exprStmt x, .exprStmt x, k)) ∧
    (∀ (g : Nat → String) (e : Expr) (k : Nat), isFuncLit e = false →
      visitExpr g e k = some (e, k)) ∧
    (∀ (g : Nat → String) (lhs : List Expr) (tok : Token) (rhs : List Expr) (k : Nat),
      (∀ e ∈ rhs, isFuncLit e = false) →
      visitStmt g (.assign lhs tok rhs) k = some (.assign lhs tok rhs, .assign lhs tok rhs, k)) ∧
    ∀ i p init cond post body,
      stmtVia [.assign [.ident "x", .ident "y"] Token.DEFINE
          [.call (.ident "g") [.funcLit (some [loopLt])],
           .funcLit (some [.other 0, .block [loopInner]])]] i p =
        some (.forStmt init cond post body) →
      eligible init cond post = true → inSlots true p = true →
        ∃ k x tok e op b ptok, 0 ≤ k ∧ k + 3 ≤ 3 ∧
          init = some (.assign [.ident x] tok [e]) ∧
          cond = some (.binary (.ident x) op b) ∧
          post = some (.incDec (.ident x) ptok) ∧
          stmtVia [.assign [.ident "x", .ident "y"] Token.DEFINE
            [.call (.ident "g") [.funcLit (some [loopLt])],
             .funcLit (some [.other 0, .block [.block
               [hoistedDecl sampleGen (.basicLit Token.INT "0") (.ident "m") Token.INC 0,
                hoistedLoop sampleGen "j" Token.DEFINE Token.LSS (some []) 0]]])]] i p =
            some (.block [hoistedDecl sampleGen e b ptok k,
              hoistedLoop sampleGen x tok op body k]) :=
  walk_enters_only_assigned_funcLit sampleGen
    [.assign [.ident "x", .ident "y"] Token.DEFINE
      [.call (.ident "g") [.funcLit (some [loopLt])],
       .funcLit (some [.other 0, .block [loopInner]])]] _ 0 3 (by rfl)

theorem stmtVia_sample :
    stmtVia [.assign [.ident "x", .ident "y"] Token.DEFINE
        [.call (.ident "g") [.funcLit (some [loopLt])],
         .funcLit (some [.other 0, .block [loopInner]])]] 0 [(.lit 1, 1), (.child, 0)] =
      some loopInner ∧
    inSlots true [(.lit 1, 1), (.child, 0)] = true ∧
    stmtVia [.assign [.ident "x", .ident "y"] Token.DEFINE
        [.call (.ident "g") [.funcLit (some [loopLt])],
         .funcLit (some [.other 0, .block [.block
           [hoistedDecl sampleGen (.basicLit Token.INT "0") (.ident "m") Token.INC 0,
            hoistedLoop sampleGen "j" Token.DEFINE Token.LSS (some []) 0]]])]] 0
        [(.lit 1, 1), (.child, 0)] =
      some (.block [hoistedDecl sampleGen (.basicLit Token.INT "0") (.ident "m") Token.INC 0,
        hoistedLoop sampleGen "j" Token.DEFINE Token.LSS (some []) 0]) ∧
    stmtVia [.assign [.ident "x", .ident "y"] Token.DEFINE
        [.call (.ident "g") [.funcLit (some [loopLt])],
         .funcLit (some [.other 0, .block [loopInner]])]] 0 [(.lit 0, 0)] = none := by
  refine ⟨by rfl, by rfl, by rfl, by rfl⟩

end Gomp
